import Mathlib

/-!
# Verification of the per-key token-bucket rate limiter

Shallow embedding of `fiber/middleware/ratelimit.go` (package `middleware`
of `cubetiqlabs/gopkg`): the `RateLimiter` data model and its operations
`NewRateLimiter`, `take`, `cleanupStaleBuckets`, `evictOldestBucket`.

Modelling conventions:
* Go `time.Time` / `time.Duration` are both integer nanosecond counts, so
  instants and durations are embedded as `ℤ` (nanoseconds).
* The `float64` token arithmetic of the source is embedded as exact `ℚ`
  arithmetic.  All concrete inputs used below keep numerators/denominators
  far below 2^53·denominator granularity, where `float64` arithmetic on the
  involved values (integers, and integer multiples of 1/60·10^9-minute
  steps) is exact, so the `ℚ` embedding agrees with the source there.
* The Go `map[string]*bucket` is embedded as an association list
  `List (String × Bucket)` with unique keys; a fresh key is appended at the
  end.  Go's map iteration order is unspecified; the list order is the
  deterministic stand-in for it (the spec itself says the tie-break among
  equally old buckets is implementation-defined).
* Go's integer division truncates toward zero: `Int.tdiv`.
* A Go `float64 → time.Duration` conversion truncates toward zero.
  (For a non-finite `float64` — which arises only when `rate = 0` makes
  `deficit / float64(rate)` infinite — the Go conversion is
  implementation-defined; the `ℚ` embedding uses the `q / 0 = 0`
  convention there.  On that path both the real program (gc backend) and
  the model end up flooring the result up to one second, so the returned
  value agrees.)
-/

namespace RatelimitGo

/-- `time.Second` in nanoseconds. -/
def secondNs : ℤ := 1000000000

/-- `time.Minute` in nanoseconds. -/
def minuteNs : ℤ := 60000000000

/-- `bucketCleanupInterval = 5 * time.Minute`. -/
def bucketCleanupInterval : ℤ := 5 * minuteNs

/-- `bucketInactiveThreshold = 15 * time.Minute`. -/
def bucketInactiveThreshold : ℤ := 15 * minuteNs

/-- `defaultMaxBuckets = 10000`. -/
def defaultMaxBuckets : ℕ := 10000

/-- Go integer division by 2 (truncation toward zero), as in `rate / 2`. -/
def goDiv2 (r : ℤ) : ℤ := r.tdiv 2

/-- `bucket`: per-key token bucket state (`tokens`, `last`, `accessed`). -/
structure Bucket where
  tokens : ℚ
  last : ℤ
  accessed : ℤ
deriving DecidableEq

/-- `RateLimiter`: the bucket table plus configuration fields.  The
`sync.Mutex` serialises calls; the model makes each `take` an atomic step,
which is exactly what the lock guarantees. -/
structure RateLimiter where
  buckets : List (String × Bucket)
  ratePerMin : ℤ
  maxBuckets : ℕ
  lastCleanup : ℤ
deriving DecidableEq

/-- `NewRateLimiter`: normalises a non-positive rate to 600, empty bucket
map, `maxBuckets = 10000`, `lastCleanup = now` (`time.Now()` is passed in
as a parameter). -/
def newRateLimiter (ratePerMin : ℤ) (now : ℤ) : RateLimiter :=
  { buckets := []
    ratePerMin := if ratePerMin ≤ 0 then 600 else ratePerMin
    maxBuckets := defaultMaxBuckets
    lastCleanup := now }

/-- Map lookup `rl.buckets[key]` (first entry with the given key). -/
def assocFind (k : String) : List (String × Bucket) → Option Bucket
  | [] => none
  | e :: es => if e.1 = k then some e.2 else assocFind k es

/-- In-place mutation of the bucket stored under an existing key
(`b` is a pointer in the source, so writes through it update the map). -/
def assocUpdate (k : String) (b : Bucket) : List (String × Bucket) → List (String × Bucket)
  | [] => []
  | e :: es => if e.1 = k then (k, b) :: es else e :: assocUpdate k b es

/-- Map deletion `delete(rl.buckets, key)`. -/
def assocErase (k : String) : List (String × Bucket) → List (String × Bucket)
  | [] => []
  | e :: es => if e.1 = k then es else e :: assocErase k es

/-- `cleanupStaleBuckets(now)`: delete every bucket whose `accessed` is
strictly before `now - bucketInactiveThreshold`. -/
def cleanupStaleBuckets (now : ℤ) (l : List (String × Bucket)) : List (String × Bucket) :=
  l.filter fun e => decide (¬ e.2.accessed < now - bucketInactiveThreshold)

/-- The opening lines of `take`: run the periodic cleanup if more than
`bucketCleanupInterval` has passed since `lastCleanup`. -/
def cleanupStep (s : RateLimiter) (now : ℤ) : RateLimiter :=
  if bucketCleanupInterval < now - s.lastCleanup then
    { s with buckets := cleanupStaleBuckets now s.buckets, lastCleanup := now }
  else s

/-- The scan of `evictOldestBucket`: `oldestKey`/`oldestTime` after the
loop, i.e. the first entry with the minimal `accessed` in iteration
order (`first || b.accessed.Before(oldestTime)` keeps the first-found
entry on ties). -/
def oldestEntry : List (String × Bucket) → Option (String × Bucket)
  | [] => none
  | e :: es =>
      some (es.foldl (fun best cur => if cur.2.accessed < best.2.accessed then cur else best) e)

/-- `evictOldestBucket`: delete the scan's victim and report success —
but only when the final `oldestKey` is not the empty string (`""` is both
the scan's initial sentinel and a possible real key).  `none` models
`return false`. -/
def evictOldestBucket (l : List (String × Bucket)) : Option (List (String × Bucket)) :=
  match oldestEntry l with
  | none => none
  | some (k, _) => if k = "" then none else some (assocErase k l)

/-- `maxTokens` of the refill block: `float64(rate / 2)` floored at 1. -/
def maxTokensQ (r : ℤ) : ℚ :=
  let m : ℚ := (goDiv2 r : ℚ)
  if m < 1 then 1 else m

/-- `dynBurst` of the creation block: `rate / 2` floored at 1 (integer). -/
def dynBurst (r : ℤ) : ℤ :=
  let d := goDiv2 r
  if d < 1 then 1 else d

/-- The refill block of `take`: `elapsed := now.Sub(b.last).Minutes()`;
if positive, add `elapsed * rate` tokens, cap at `maxTokens`, advance
`b.last`. -/
def refillBucket (rate : ℤ) (now : ℤ) (b : Bucket) : Bucket :=
  let elapsed : ℚ := ((now - b.last : ℤ) : ℚ) / (minuteNs : ℚ)
  if 0 < elapsed then
    let t := b.tokens + elapsed * (rate : ℚ)
    let t' := if maxTokensQ rate < t then maxTokensQ rate else t
    { b with tokens := t', last := now }
  else b

/-- Go `float64 → time.Duration` conversion: truncation toward zero. -/
def goDuration (q : ℚ) : ℤ :=
  if 0 ≤ q then ⌊q⌋ else -⌊-q⌋

/-- The rejection arm of `take`: `deficit := 1 - tokens`,
`minutes := deficit / float64(rate)`,
`retry := time.Duration(minutes * float64(time.Minute))`, floored at one
second. -/
def rejectRetry (rate : ℤ) (tokens : ℚ) : ℤ :=
  let deficit : ℚ := 1 - tokens
  let minutes : ℚ := deficit / (rate : ℚ)
  let retry := goDuration (minutes * (minuteNs : ℚ))
  if retry < secondNs then secondNs else retry

/-- The decision block of `take`: consume a token if `tokens >= 1`,
otherwise compute the retry delay.  Returns
`(allowed, retryAfter, bucket after the call)`. -/
def consumeStep (rate : ℤ) (b : Bucket) : Bool × ℤ × Bucket :=
  if 1 ≤ b.tokens then (true, 0, { b with tokens := b.tokens - 1 })
  else (false, rejectRetry rate b.tokens, b)

/-- Result of one `take` call. -/
structure TakeResult where
  allowed : Bool
  retryAfter : ℤ
  state : RateLimiter
deriving DecidableEq

/-- The table the creation branch of `take` works on when the key is
absent: the current table if there is room, otherwise the table after a
successful eviction; `none` models the `return false, time.Minute` exit
(eviction failed). -/
def resolvedTable (s : RateLimiter) : Option (List (String × Bucket)) :=
  if s.maxBuckets ≤ s.buckets.length then evictOldestBucket s.buckets
  else some s.buckets

/-- `take` after the cleanup lines: look the key up, create the bucket
(evicting first if the table is full) when absent, then touch / refill /
decide.  The created bucket goes through the same touch/refill/decide
lines (they are no-ops on it apart from the token consumption, since its
`last` and `accessed` already equal `now`). -/
def takeAfterCleanup (s : RateLimiter) (key : String) (rate : ℤ) (now : ℤ) : TakeResult :=
  match assocFind key s.buckets with
  | some b =>
      let b1 := { b with accessed := now }
      let b2 := refillBucket rate now b1
      let r := consumeStep rate b2
      ⟨r.1, r.2.1, { s with buckets := assocUpdate key r.2.2 s.buckets }⟩
  | none =>
      match resolvedTable s with
      | none => ⟨false, minuteNs, s⟩
      | some l =>
          let b0 : Bucket := ⟨((dynBurst rate : ℤ) : ℚ), now, now⟩
          let b1 := { b0 with accessed := now }
          let b2 := refillBucket rate now b1
          let r := consumeStep rate b2
          ⟨r.1, r.2.1, { s with buckets := l ++ [(key, r.2.2)] }⟩

/-- `take(key, rate)` at instant `now`: one full lock-protected call. -/
def take (s : RateLimiter) (key : String) (rate : ℤ) (now : ℤ) : TakeResult :=
  takeAfterCleanup (cleanupStep s now) key rate now

/-- The bucket as it stands at the decision point (`if b.tokens >= 1`) of
a `take` call: after cleanup, lookup/creation, touch and refill; `none`
when the call takes the eviction-failure reject path and never reaches
the decision. -/
def decisionBucket (s : RateLimiter) (key : String) (rate : ℤ) (now : ℤ) : Option Bucket :=
  let s1 := cleanupStep s now
  match assocFind key s1.buckets with
  | some b => some (refillBucket rate now { b with accessed := now })
  | none =>
      match resolvedTable s1 with
      | none => none
      | some _ => some (refillBucket rate now ⟨((dynBurst rate : ℤ) : ℚ), now, now⟩)

/-- One call of a call sequence: key, rate, timestamp (ns). -/
abbrev Call := String × ℤ × ℤ

/-- State after a sequence of `take` calls. -/
def runTakes (s : RateLimiter) : List Call → RateLimiter
  | [] => s
  | c :: cs => runTakes (take s c.1 c.2.1 c.2.2).state cs

/-- The `allowed` outcomes of a sequence of `take` calls. -/
def runAllowed (s : RateLimiter) : List Call → List Bool
  | [] => []
  | c :: cs =>
      let r := take s c.1 c.2.1 c.2.2
      r.allowed :: runAllowed r.state cs

/-- Token count stored for a key (`none` when the key has no bucket). -/
def keyTokens (s : RateLimiter) (k : String) : Option ℚ :=
  (assocFind k s.buckets).map Bucket.tokens

/-- The table entry a `take` call leaves behind right after creating the
bucket for an unseen key: burst capacity minus the consumed token, both
timestamps at the call instant. -/
def entryOf (c : Call) : String × Bucket :=
  (c.1, ⟨((dynBurst c.2.1 : ℤ) : ℚ) - 1, c.2.2, c.2.2⟩)

/-- Simulation invariant for the two-key isolation property: the
key-A-only run's table is the filter of the interleaved run's table,
the interleaved table only holds the two keys with no duplicates, and
neither run has changed `maxBuckets` or swept (`lastCleanup` fixed). -/
def isoInv (A B : String) (M : ℕ) (lc : ℤ) (sI sA : RateLimiter) : Prop :=
  sA.buckets = sI.buckets.filter (fun e => e.1 == A) ∧
  (∀ e ∈ sI.buckets, e.1 = A ∨ e.1 = B) ∧
  (sI.buckets.map Prod.fst).Nodup ∧
  sI.maxBuckets = M ∧ sA.maxBuckets = M ∧
  sI.lastCleanup = lc ∧ sA.lastCleanup = lc

/-- The token-range invariant of the spec, for burst capacity
`max(1, r/2)`: every bucket in the table holds between `0` and
`burstCapacity(r)` tokens. -/
def tokensWithin (r : ℤ) (s : RateLimiter) : Prop :=
  ∀ e ∈ s.buckets, 0 ≤ e.2.tokens ∧ e.2.tokens ≤ maxTokensQ r

/-! ## Basic facts about the arithmetic helpers -/

theorem one_le_dynBurst (r : ℤ) : 1 ≤ dynBurst r := by
  simp only [dynBurst]
  split <;> omega

theorem maxTokensQ_eq_dynBurst (r : ℤ) : maxTokensQ r = ((dynBurst r : ℤ) : ℚ) := by
  by_cases h : goDiv2 r < 1
  · have h' : ((goDiv2 r : ℤ) : ℚ) < 1 := by exact_mod_cast h
    simp [maxTokensQ, dynBurst, h, h']
  · have h' : ¬ ((goDiv2 r : ℤ) : ℚ) < 1 := by exact_mod_cast h
    simp [maxTokensQ, dynBurst, h, h']

theorem one_le_maxTokensQ (r : ℤ) : 1 ≤ maxTokensQ r := by
  rw [maxTokensQ_eq_dynBurst]
  exact_mod_cast one_le_dynBurst r

theorem secondNs_le_rejectRetry (rate : ℤ) (tokens : ℚ) :
    secondNs ≤ rejectRetry rate tokens := by
  simp only [rejectRetry]
  split
  · exact le_refl _
  · omega

/-! ## Association-list lemmas -/

theorem assocFind_append (k : String) (l₁ l₂ : List (String × Bucket)) :
    assocFind k (l₁ ++ l₂) =
      (match assocFind k l₁ with
       | some b => some b
       | none => assocFind k l₂) := by
  induction l₁ with
  | nil => simp [assocFind]
  | cons e es ih =>
      by_cases h : e.1 = k <;> simp [assocFind, h, ih]

theorem assocFind_eq_none_iff (k : String) (l : List (String × Bucket)) :
    assocFind k l = none ↔ ∀ e ∈ l, e.1 ≠ k := by
  induction l with
  | nil => simp [assocFind]
  | cons e es ih =>
      by_cases h : e.1 = k <;> simp [assocFind, h, ih]

theorem assocFind_assocUpdate_self (k : String) (b b₀ : Bucket)
    (l : List (String × Bucket)) (h : assocFind k l = some b₀) :
    assocFind k (assocUpdate k b l) = some b := by
  induction l with
  | nil => simp [assocFind] at h
  | cons e es ih =>
      by_cases he : e.1 = k
      · simp [assocFind, assocUpdate, he]
      · simp only [assocFind, assocUpdate, if_neg he] at h ⊢
        exact ih h

theorem assocFind_assocUpdate_ne (k k' : String) (b : Bucket)
    (l : List (String × Bucket)) (h : k' ≠ k) :
    assocFind k' (assocUpdate k b l) = assocFind k' l := by
  induction l with
  | nil => simp [assocUpdate]
  | cons e es ih =>
      by_cases he : e.1 = k
      · simp [assocFind, assocUpdate, he, Ne.symm h]
      · simp [assocFind, assocUpdate, he, ih]

theorem assocUpdate_length (k : String) (b : Bucket) (l : List (String × Bucket)) :
    (assocUpdate k b l).length = l.length := by
  induction l with
  | nil => rfl
  | cons e es ih =>
      by_cases he : e.1 = k <;> simp [assocUpdate, he, ih]

theorem assocFind_assocErase_ne (k k' : String) (l : List (String × Bucket))
    (h : k' ≠ k) :
    assocFind k' (assocErase k l) = assocFind k' l := by
  induction l with
  | nil => rfl
  | cons e es ih =>
      by_cases he : e.1 = k
      · simp [assocFind, assocErase, he, Ne.symm h]
      · simp [assocFind, assocErase, he, ih]

theorem assocErase_length (k : String) (b : Bucket) (l : List (String × Bucket))
    (h : assocFind k l = some b) :
    l.length = (assocErase k l).length + 1 := by
  induction l with
  | nil => simp [assocFind] at h
  | cons e es ih =>
      by_cases he : e.1 = k
      · simp [assocErase, he]
      · simp only [assocFind, if_neg he] at h
        simp [assocErase, he, ih h]

/-! ## Lemmas about the cleanup sweep -/

theorem mem_cleanupStaleBuckets (now : ℤ) (l : List (String × Bucket))
    (e : String × Bucket) :
    e ∈ cleanupStaleBuckets now l ↔
      e ∈ l ∧ ¬ e.2.accessed < now - bucketInactiveThreshold := by
  simp [cleanupStaleBuckets, List.mem_filter]

theorem assocFind_cleanupStaleBuckets_none (now : ℤ) (k : String)
    (l : List (String × Bucket)) (h : assocFind k l = none) :
    assocFind k (cleanupStaleBuckets now l) = none := by
  rw [assocFind_eq_none_iff] at h ⊢
  intro e he
  exact h e ((mem_cleanupStaleBuckets now l e).mp he).1

theorem cleanupStaleBuckets_length_le (now : ℤ) (l : List (String × Bucket)) :
    (cleanupStaleBuckets now l).length ≤ l.length :=
  List.length_filter_le _ l

theorem cleanupStep_of_no_sweep (s : RateLimiter) (now : ℤ)
    (h : now - s.lastCleanup ≤ bucketCleanupInterval) :
    cleanupStep s now = s := by
  simp [cleanupStep, not_lt.mpr h]

theorem cleanupStep_maxBuckets (s : RateLimiter) (now : ℤ) :
    (cleanupStep s now).maxBuckets = s.maxBuckets := by
  simp only [cleanupStep]
  split <;> rfl

theorem cleanupStep_buckets_length_le (s : RateLimiter) (now : ℤ) :
    (cleanupStep s now).buckets.length ≤ s.buckets.length := by
  simp only [cleanupStep]
  split
  · exact cleanupStaleBuckets_length_le _ _
  · exact le_refl _

theorem assocFind_cleanupStep_none (s : RateLimiter) (now : ℤ) (k : String)
    (h : assocFind k s.buckets = none) :
    assocFind k (cleanupStep s now).buckets = none := by
  simp only [cleanupStep]
  split
  · exact assocFind_cleanupStaleBuckets_none now k _ h
  · exact h

/-! ## Lemmas about the eviction scan -/

theorem oldestEntry_mem (l : List (String × Bucket)) (e : String × Bucket)
    (h : oldestEntry l = some e) : e ∈ l := by
  match l with
  | [] => simp [oldestEntry] at h
  | f :: fs =>
      simp only [oldestEntry, Option.some.injEq] at h
      subst h
      induction fs generalizing f with
      | nil => simp
      | cons g gs ih =>
          simp only [List.foldl_cons]
          rcases List.mem_cons.mp
              (ih (if g.2.accessed < f.2.accessed then g else f)) with h1 | h1
          · rw [h1]
            split
            · simp
            · simp
          · simp [h1]

theorem oldestEntry_head (f : String × Bucket) (fs : List (String × Bucket))
    (h : ∀ g ∈ fs, ¬ g.2.accessed < f.2.accessed) :
    oldestEntry (f :: fs) = some f := by
  simp only [oldestEntry, Option.some.injEq]
  induction fs with
  | nil => simp
  | cons g gs ih =>
      simp only [List.foldl_cons]
      rw [if_neg (h g (List.mem_cons_self g gs))]
      exact ih fun g' hg' => h g' (List.mem_cons_of_mem g hg')

/-! ## Path characterizations of `take` -/

theorem take_create (s : RateLimiter) (key : String) (rate now : ℤ)
    (h0 : now - s.lastCleanup ≤ bucketCleanupInterval)
    (h1 : assocFind key s.buckets = none)
    (h2 : s.buckets.length < s.maxBuckets) :
    take s key rate now =
      ⟨true, 0,
        { s with buckets :=
            s.buckets ++ [(key, ⟨((dynBurst rate : ℤ) : ℚ) - 1, now, now⟩)] }⟩ := by
  have hfresh : (1 : ℚ) ≤ ((dynBurst rate : ℤ) : ℚ) := by
    exact_mod_cast one_le_dynBurst rate
  have htab : resolvedTable s = some s.buckets := by
    simp [resolvedTable, not_le.mpr h2]
  rw [take, cleanupStep_of_no_sweep s now h0]
  simp only [takeAfterCleanup, h1, htab]
  simp [refillBucket, consumeStep, hfresh]

theorem take_existing (s : RateLimiter) (key : String) (rate now : ℤ) (b : Bucket)
    (h0 : now - s.lastCleanup ≤ bucketCleanupInterval)
    (hb : assocFind key s.buckets = some b) :
    take s key rate now =
      (let b2 := refillBucket rate now { b with accessed := now }
       if 1 ≤ b2.tokens then
         ⟨true, 0,
           { s with buckets := assocUpdate key { b2 with tokens := b2.tokens - 1 } s.buckets }⟩
       else
         ⟨false, rejectRetry rate b2.tokens,
           { s with buckets := assocUpdate key b2 s.buckets }⟩) := by
  rw [take, cleanupStep_of_no_sweep s now h0]
  simp only [takeAfterCleanup, hb, consumeStep]
  split <;> simp

theorem take_existing_same_now (s : RateLimiter) (key : String) (rate now : ℤ)
    (b : Bucket) (h0 : now - s.lastCleanup ≤ bucketCleanupInterval)
    (hb : assocFind key s.buckets = some b) (hlast : b.last = now) :
    take s key rate now =
      (if 1 ≤ b.tokens then
         ⟨true, 0,
           { s with buckets := assocUpdate key ⟨b.tokens - 1, now, now⟩ s.buckets }⟩
       else
         ⟨false, rejectRetry rate b.tokens,
           { s with buckets := assocUpdate key ⟨b.tokens, now, now⟩ s.buckets }⟩) := by
  rw [take_existing s key rate now b h0 hb]
  have hb2 : refillBucket rate now { b with accessed := now } =
      ⟨b.tokens, now, now⟩ := by
    simp [refillBucket, hlast]
  simp only [hb2]

/-! ## More association-list lemmas, and the same-instant drain lemma -/

theorem assocUpdate_of_find_eq (k : String) (b : Bucket) (l : List (String × Bucket))
    (h : assocFind k l = some b) : assocUpdate k b l = l := by
  induction l with
  | nil => rfl
  | cons e es ih =>
      obtain ⟨k₀, b₀⟩ := e
      by_cases he : k₀ = k
      · simp only [assocFind, if_pos he, Option.some.injEq] at h
        simp [assocUpdate, he, h]
      · simp only [assocFind, if_neg he] at h
        simp [assocUpdate, he, ih h]

theorem assocUpdate_assocUpdate (k : String) (b b' : Bucket)
    (l : List (String × Bucket)) :
    assocUpdate k b' (assocUpdate k b l) = assocUpdate k b' l := by
  induction l with
  | nil => rfl
  | cons e es ih =>
      by_cases he : e.1 = k
      · simp [assocUpdate, he]
      · simp [assocUpdate, he, ih]

theorem mem_assocErase (k : String) (l : List (String × Bucket))
    (e : String × Bucket) (h : e ∈ assocErase k l) : e ∈ l := by
  induction l with
  | nil => simp [assocErase] at h
  | cons f fs ih =>
      by_cases hf : f.1 = k
      · simp only [assocErase, if_pos hf] at h
        exact List.mem_cons_of_mem f h
      · simp only [assocErase, if_neg hf] at h
        rcases List.mem_cons.mp h with h1 | h1
        · exact h1 ▸ List.mem_cons_self f fs
        · exact List.mem_cons_of_mem f (ih h1)

theorem assocFind_assocErase_none (k v : String) (l : List (String × Bucket))
    (h : assocFind k l = none) : assocFind k (assocErase v l) = none := by
  rw [assocFind_eq_none_iff] at h ⊢
  exact fun e he => h e (mem_assocErase v l e he)

theorem assocFind_append_self (k : String) (b : Bucket) (l : List (String × Bucket))
    (h : assocFind k l = none) : assocFind k (l ++ [(k, b)]) = some b := by
  rw [assocFind_append, h]
  simp [assocFind]

theorem assocFind_append_singleton_ne (k k' : String) (b : Bucket)
    (l : List (String × Bucket)) (h : k' ≠ k) :
    assocFind k' (l ++ [(k, b)]) = assocFind k' l := by
  rw [assocFind_append]
  cases hf : assocFind k' l <;> simp [assocFind, Ne.symm h]

theorem cleanupStep_no_sweep_after (s : RateLimiter) (now : ℤ) :
    now - (cleanupStep s now).lastCleanup ≤ bucketCleanupInterval := by
  simp only [cleanupStep]
  split
  · norm_num [bucketCleanupInterval, minuteNs]
  · omega

theorem resolvedTable_find_none (s1 : RateLimiter) (k : String)
    (l : List (String × Bucket)) (htab : resolvedTable s1 = some l)
    (h : assocFind k s1.buckets = none) : assocFind k l = none := by
  simp only [resolvedTable] at htab
  split at htab
  · simp only [evictOldestBucket] at htab
    cases ho : oldestEntry s1.buckets with
    | none => simp [ho] at htab
    | some e =>
        obtain ⟨k₀, b₀⟩ := e
        simp only [ho] at htab
        split at htab
        · exact absurd htab (by simp)
        · cases htab
          exact assocFind_assocErase_none k k₀ s1.buckets h
  · cases htab
    exact h

theorem take_create_of_table (s : RateLimiter) (key : String) (rate now : ℤ)
    (l : List (String × Bucket))
    (h1 : assocFind key (cleanupStep s now).buckets = none)
    (htab : resolvedTable (cleanupStep s now) = some l) :
    take s key rate now =
      ⟨true, 0,
        { cleanupStep s now with buckets :=
            l ++ [(key, ⟨((dynBurst rate : ℤ) : ℚ) - 1, now, now⟩)] }⟩ := by
  have hfresh : (1 : ℚ) ≤ ((dynBurst rate : ℤ) : ℚ) := by
    exact_mod_cast one_le_dynBurst rate
  rw [take]
  simp only [takeAfterCleanup, h1, htab]
  simp [refillBucket, consumeStep, hfresh]

/-- Draining a bucket with `j` same-instant calls: each consumes one
token, never refills (elapsed time is zero), and only rewrites the
bucket in place. -/
theorem runTakes_drain (k : String) (r now : ℤ) :
    ∀ (j : ℕ) (s : RateLimiter) (t : ℚ),
      now - s.lastCleanup ≤ bucketCleanupInterval →
      assocFind k s.buckets = some ⟨t, now, now⟩ →
      (j : ℚ) ≤ t →
      runTakes s (List.replicate j (k, r, now)) =
        { s with buckets := assocUpdate k ⟨t - j, now, now⟩ s.buckets } := by
  intro j
  induction j with
  | zero =>
      intro s t h0 hb _
      simp only [List.replicate, runTakes, Nat.cast_zero, sub_zero]
      rw [assocUpdate_of_find_eq k _ _ hb]
  | succ m ih =>
      intro s t h0 hb hj
      have h1 : (1 : ℚ) ≤ t := by
        have : (1 : ℚ) ≤ ((m + 1 : ℕ) : ℚ) := by
          push_cast
          linarith [Nat.cast_nonneg (α := ℚ) m]
        linarith
      rw [List.replicate_succ]
      show runTakes (take s k r now).state _ = _
      rw [take_existing_same_now s k r now ⟨t, now, now⟩ h0 hb rfl, if_pos h1]
      have hb' : assocFind k (assocUpdate k ⟨t - 1, now, now⟩ s.buckets) =
          some ⟨t - 1, now, now⟩ :=
        assocFind_assocUpdate_self k _ ⟨t, now, now⟩ _ hb
      have hrec := ih { s with buckets := assocUpdate k ⟨t - 1, now, now⟩ s.buckets }
        (t - 1) h0 hb' (by push_cast at hj ⊢; linarith)
      rw [hrec]
      simp only [assocUpdate_assocUpdate]
      rw [show t - 1 - (m : ℚ) = t - ((m + 1 : ℕ) : ℚ) by push_cast; ring]

/-- C3-supporting evaluation.  A limiter whose single bucket is keyed by
the empty string and whose table is full: the eviction scan picks the
empty-keyed bucket, the `oldestKey != ""` sentinel then reports failure,
and `take` lands on the fixed one-minute reject path even though the map
is non-empty. -/
theorem claim_C3_eval :
    take ⟨[("", ⟨0, 0, 0⟩)], 600, 1, 0⟩ "x" 5 0 =
      ⟨false, minuteNs, ⟨[("", ⟨0, 0, 0⟩)], 600, 1, 0⟩⟩ ∧
    evictOldestBucket [("", ⟨0, 0, 0⟩)] = none ∧
    ([("", (⟨0, 0, 0⟩ : Bucket))] : List (String × Bucket)) ≠ [] := by
  refine ⟨?_, by simp [evictOldestBucket, oldestEntry], by simp⟩
  have hfind : assocFind "x" ([("", ⟨0, 0, 0⟩)] : List (String × Bucket)) = none := by
    simp [assocFind]
  have htab : resolvedTable ⟨[("", ⟨0, 0, 0⟩)], 600, 1, 0⟩ = none := by
    simp [resolvedTable, evictOldestBucket, oldestEntry]
  rw [take, cleanupStep_of_no_sweep _ _ (by norm_num [bucketCleanupInterval, minuteNs])]
  simp only [takeAfterCleanup, hfind, htab]

/-- C9: every `take` call either allows with `retryAfter = 0` or rejects
with `retryAfter` of at least one second, for every rate (including
non-positive rates). -/
theorem claim_C9 (s : RateLimiter) (key : String) (rate now : ℤ) :
    ((take s key rate now).allowed = true ∧ (take s key rate now).retryAfter = 0) ∨
    ((take s key rate now).allowed = false ∧
      secondNs ≤ (take s key rate now).retryAfter) := by
  rw [take]
  cases hfind : assocFind key (cleanupStep s now).buckets with
  | some b =>
      by_cases ht : 1 ≤ (refillBucket rate now { b with accessed := now }).tokens
      · left; simp [takeAfterCleanup, hfind, consumeStep, ht]
      · right; simp [takeAfterCleanup, hfind, consumeStep, ht, secondNs_le_rejectRetry]
  | none =>
      cases hres : resolvedTable (cleanupStep s now) with
      | none =>
          right
          norm_num [takeAfterCleanup, hfind, hres, secondNs, minuteNs]
      | some l =>
          by_cases ht : 1 ≤ (refillBucket rate now
              ⟨((dynBurst rate : ℤ) : ℚ), now, now⟩).tokens
          · left; simp [takeAfterCleanup, hfind, hres, consumeStep, ht]
          · right
            simp [takeAfterCleanup, hfind, hres, consumeStep, ht,
              secondNs_le_rejectRetry]

/-- C5: when a `take` call creates a bucket for a previously-unseen key
with rate `r` (the key is absent at lookup time and the call is not on
the eviction-failure reject path, hence admitted), exactly
`max(1, r/2) = dynBurst r` same-instant calls for that key are admitted
in total — the creating call counted among them — and the next such call
is rejected. -/
theorem claim_C5 (s : RateLimiter) (k : String) (r now : ℤ)
    (hunseen : assocFind k (cleanupStep s now).buckets = none)
    (hcreated : (take s k r now).allowed = true) :
    (∀ j : ℕ, j < (dynBurst r).toNat →
        (take (runTakes s (List.replicate j (k, r, now))) k r now).allowed = true) ∧
    (take (runTakes s (List.replicate (dynBurst r).toNat (k, r, now)))
        k r now).allowed = false := by
  cases hres : resolvedTable (cleanupStep s now) with
  | none =>
      rw [take] at hcreated
      simp [takeAfterCleanup, hunseen, hres] at hcreated
  | some l =>
      have hcreate := take_create_of_table s k r now l hunseen hres
      have hB1 : (1 : ℤ) ≤ dynBurst r := one_le_dynBurst r
      have hNZ : (((dynBurst r).toNat : ℕ) : ℤ) = dynBurst r :=
        Int.toNat_of_nonneg (by linarith)
      have hNQ : (((dynBurst r).toNat : ℕ) : ℚ) = ((dynBurst r : ℤ) : ℚ) := by
        exact_mod_cast hNZ
      have hlnone := resolvedTable_find_none (cleanupStep s now) k l hres hunseen
      have hfind1 : assocFind k
          (l ++ [(k, ⟨((dynBurst r : ℤ) : ℚ) - 1, now, now⟩)]) =
          some ⟨((dynBurst r : ℤ) : ℚ) - 1, now, now⟩ :=
        assocFind_append_self k _ l hlnone
      have h0' := cleanupStep_no_sweep_after s now
      have main : ∀ m : ℕ, (m : ℚ) ≤ ((dynBurst r : ℤ) : ℚ) - 1 →
          runTakes s (List.replicate (m + 1) (k, r, now)) =
            { cleanupStep s now with
              buckets := assocUpdate k ⟨((dynBurst r : ℤ) : ℚ) - 1 - m, now, now⟩
                (l ++ [(k, ⟨((dynBurst r : ℤ) : ℚ) - 1, now, now⟩)]) } := by
        intro m hm
        rw [List.replicate_succ]
        show runTakes (take s k r now).state _ = _
        rw [hcreate]
        exact runTakes_drain k r now m _ _ h0' hfind1 hm
      constructor
      · intro j hj
        match j with
        | 0 => simpa [runTakes] using hcreated
        | m + 1 =>
            have hmN : ((m + 1 : ℕ) : ℚ) < (((dynBurst r).toNat : ℕ) : ℚ) := by
              exact_mod_cast hj
            rw [hNQ] at hmN
            have hmB : (m : ℚ) ≤ ((dynBurst r : ℤ) : ℚ) - 1 := by
              push_cast at hmN ⊢
              linarith
            have hcond : (1 : ℚ) ≤ ((dynBurst r : ℤ) : ℚ) - 1 - m := by
              push_cast at hmN ⊢
              have : ((m : ℚ) + 1) + 1 ≤ ((dynBurst r : ℤ) : ℚ) := by
                have hstep : ((m : ℚ) + 1) + 1 ≤ (((dynBurst r).toNat : ℕ) : ℚ) := by
                  exact_mod_cast Nat.succ_le_of_lt hj
                rw [hNQ] at hstep
                exact hstep
              linarith
            have hfind2 : assocFind k (assocUpdate k
                ⟨((dynBurst r : ℤ) : ℚ) - 1 - m, now, now⟩
                (l ++ [(k, ⟨((dynBurst r : ℤ) : ℚ) - 1, now, now⟩)])) =
                some ⟨((dynBurst r : ℤ) : ℚ) - 1 - m, now, now⟩ :=
              assocFind_assocUpdate_self k _ _ _ hfind1
            rw [main m hmB]
            rw [take_existing_same_now
              { cleanupStep s now with
                buckets := assocUpdate k ⟨((dynBurst r : ℤ) : ℚ) - 1 - m, now, now⟩
                  (l ++ [(k, ⟨((dynBurst r : ℤ) : ℚ) - 1, now, now⟩)]) }
              k r now ⟨((dynBurst r : ℤ) : ℚ) - 1 - m, now, now⟩ h0' hfind2 rfl,
              if_pos hcond]
      · have hNpos : 1 ≤ (dynBurst r).toNat := by omega
        obtain ⟨m, hm⟩ : ∃ m, (dynBurst r).toNat = m + 1 :=
          ⟨(dynBurst r).toNat - 1, by omega⟩
        have hmB : (m : ℚ) ≤ ((dynBurst r : ℤ) : ℚ) - 1 := by
          have : ((m + 1 : ℕ) : ℚ) = ((dynBurst r : ℤ) : ℚ) := by
            rw [← hNQ, hm]
          push_cast at this ⊢
          linarith
        have hzero : ((dynBurst r : ℤ) : ℚ) - 1 - m = 0 := by
          have : ((m + 1 : ℕ) : ℚ) = ((dynBurst r : ℤ) : ℚ) := by
            rw [← hNQ, hm]
          push_cast at this
          linarith
        have hcond : ¬ (1 : ℚ) ≤ ((dynBurst r : ℤ) : ℚ) - 1 - m := by
          rw [hzero]
          norm_num
        have hfind2 : assocFind k (assocUpdate k
            ⟨((dynBurst r : ℤ) : ℚ) - 1 - m, now, now⟩
            (l ++ [(k, ⟨((dynBurst r : ℤ) : ℚ) - 1, now, now⟩)])) =
            some ⟨((dynBurst r : ℤ) : ℚ) - 1 - m, now, now⟩ :=
          assocFind_assocUpdate_self k _ _ _ hfind1
        rw [hm, main m hmB]
        rw [take_existing_same_now
          { cleanupStep s now with
            buckets := assocUpdate k ⟨((dynBurst r : ℤ) : ℚ) - 1 - m, now, now⟩
              (l ++ [(k, ⟨((dynBurst r : ℤ) : ℚ) - 1, now, now⟩)]) }
          k r now ⟨((dynBurst r : ℤ) : ℚ) - 1 - m, now, now⟩ h0' hfind2 rfl,
          if_neg hcond]

/-- C5 witness: fresh limiter, key "a", rate 60 (burst 30): the creating
call plus 29 further same-instant calls are admitted, the 31st call is
rejected. -/
theorem claim_C5_witness :
    (∀ j : ℕ, j < (dynBurst 60).toNat →
        (take (runTakes (newRateLimiter 60 0) (List.replicate j ("a", 60, 0)))
          "a" 60 0).allowed = true) ∧
    (take (runTakes (newRateLimiter 60 0)
        (List.replicate (dynBurst 60).toNat ("a", 60, 0))) "a" 60 0).allowed = false :=
  claim_C5 (newRateLimiter 60 0) "a" 60 0
    (by decide)
    (by rw [take_create (newRateLimiter 60 0) "a" 60 0 (by decide) rfl (by decide)])

/-! ## The rate = 60/min concrete scenario (C1) -/

theorem runTakes_append (s : RateLimiter) (l₁ l₂ : List Call) :
    runTakes s (l₁ ++ l₂) = runTakes (runTakes s l₁) l₂ := by
  induction l₁ generalizing s with
  | nil => rfl
  | cons c cs ih =>
      rw [List.cons_append]
      show runTakes (take s c.1 c.2.1 c.2.2).state (cs ++ l₂) = _
      rw [ih]
      rfl

theorem scenario60_create :
    take (newRateLimiter 60 0) "a" 60 0 =
      ⟨true, 0, ⟨[("a", ⟨29, 0, 0⟩)], 60, 10000, 0⟩⟩ := by
  rw [take_create (newRateLimiter 60 0) "a" 60 0
    (by norm_num [newRateLimiter, bucketCleanupInterval, minuteNs]) rfl
    (by norm_num [newRateLimiter, defaultMaxBuckets])]
  have hdb : dynBurst 60 = 30 := by norm_num [dynBurst, goDiv2, Int.tdiv]
  norm_num [newRateLimiter, defaultMaxBuckets, hdb]

theorem scenario60_phase1 (j : ℕ) (hj : j ≤ 29) :
    runTakes (newRateLimiter 60 0) (List.replicate (j + 1) ("a", 60, 0)) =
      ⟨[("a", ⟨29 - (j : ℚ), 0, 0⟩)], 60, 10000, 0⟩ := by
  rw [List.replicate_succ]
  show runTakes (take (newRateLimiter 60 0) "a" 60 0).state _ = _
  rw [scenario60_create]
  have hdrain := runTakes_drain "a" 60 0 j ⟨[("a", ⟨29, 0, 0⟩)], 60, 10000, 0⟩ 29
    (by norm_num [bucketCleanupInterval, minuteNs]) (by simp [assocFind])
    (by exact_mod_cast hj)
  rw [hdrain]
  simp [assocUpdate]

theorem scenario60_state30 :
    runTakes (newRateLimiter 60 0) (List.replicate 30 ("a", 60, 0)) =
      ⟨[("a", ⟨0, 0, 0⟩)], 60, 10000, 0⟩ := by
  have h := scenario60_phase1 29 (le_refl 29)
  norm_num at h
  exact h

theorem scenario60_reject31 :
    take ⟨[("a", ⟨0, 0, 0⟩)], 60, 10000, 0⟩ "a" 60 0 =
      ⟨false, secondNs, ⟨[("a", ⟨0, 0, 0⟩)], 60, 10000, 0⟩⟩ := by
  rw [take_existing_same_now ⟨[("a", ⟨0, 0, 0⟩)], 60, 10000, 0⟩ "a" 60 0 ⟨0, 0, 0⟩
    (by norm_num [bucketCleanupInterval, minuteNs]) (by simp [assocFind]) rfl,
    if_neg (by norm_num)]
  have hrr : rejectRetry 60 0 = secondNs := by
    norm_num [rejectRetry, goDuration, minuteNs, secondNs]
  simp [assocUpdate, hrr]

theorem scenario60_state31 :
    runTakes (newRateLimiter 60 0) (List.replicate 31 ("a", 60, 0)) =
      ⟨[("a", ⟨0, 0, 0⟩)], 60, 10000, 0⟩ := by
  rw [show (31 : ℕ) = 30 + 1 from rfl, List.replicate_succ', runTakes_append,
    scenario60_state30]
  show (take ⟨[("a", ⟨0, 0, 0⟩)], 60, 10000, 0⟩ "a" 60 0).state = _
  rw [scenario60_reject31]

theorem scenario60_refill :
    take ⟨[("a", ⟨0, 0, 0⟩)], 60, 10000, 0⟩ "a" 60 minuteNs =
      ⟨true, 0, ⟨[("a", ⟨29, minuteNs, minuteNs⟩)], 60, 10000, 0⟩⟩ := by
  rw [take_existing ⟨[("a", ⟨0, 0, 0⟩)], 60, 10000, 0⟩ "a" 60 minuteNs ⟨0, 0, 0⟩
    (by norm_num [bucketCleanupInterval, minuteNs]) (by simp [assocFind])]
  norm_num [refillBucket, maxTokensQ, goDiv2, Int.tdiv, minuteNs, assocUpdate]

theorem scenario60_phase2 (j : ℕ) (hj : j ≤ 29) :
    runTakes ⟨[("a", ⟨0, 0, 0⟩)], 60, 10000, 0⟩
        (List.replicate (j + 1) ("a", 60, minuteNs)) =
      ⟨[("a", ⟨29 - (j : ℚ), minuteNs, minuteNs⟩)], 60, 10000, 0⟩ := by
  rw [List.replicate_succ]
  show runTakes (take ⟨[("a", ⟨0, 0, 0⟩)], 60, 10000, 0⟩ "a" 60 minuteNs).state _ = _
  rw [scenario60_refill]
  have hdrain := runTakes_drain "a" 60 minuteNs j
    ⟨[("a", ⟨29, minuteNs, minuteNs⟩)], 60, 10000, 0⟩ 29
    (by norm_num [bucketCleanupInterval, minuteNs]) (by simp [assocFind])
    (by exact_mod_cast hj)
  rw [hdrain]
  simp [assocUpdate]

theorem scenario60_state61 :
    runTakes (newRateLimiter 60 0)
        (List.replicate 31 ("a", 60, 0) ++ List.replicate 30 ("a", 60, minuteNs)) =
      ⟨[("a", ⟨0, minuteNs, minuteNs⟩)], 60, 10000, 0⟩ := by
  rw [runTakes_append, scenario60_state31]
  have h := scenario60_phase2 29 (le_refl 29)
  norm_num at h
  exact h

theorem scenario60_reject62 :
    take ⟨[("a", ⟨0, minuteNs, minuteNs⟩)], 60, 10000, 0⟩ "a" 60 minuteNs =
      ⟨false, secondNs, ⟨[("a", ⟨0, minuteNs, minuteNs⟩)], 60, 10000, 0⟩⟩ := by
  rw [take_existing_same_now ⟨[("a", ⟨0, minuteNs, minuteNs⟩)], 60, 10000, 0⟩
    "a" 60 minuteNs ⟨0, minuteNs, minuteNs⟩
    (by norm_num [bucketCleanupInterval, minuteNs]) (by simp [assocFind]) rfl,
    if_neg (by norm_num)]
  have hrr : rejectRetry 60 0 = secondNs := by
    norm_num [rejectRetry, goDuration, minuteNs, secondNs]
  simp [assocUpdate, hrr]

/-- C1 (amended): with rate 60/min (burst 30) and key "a", the first 30
same-instant calls are admitted, the 31st is rejected with
`retryAfter ≥ 1s` (it is exactly 1s); after one idle minute the refill is
capped at the burst capacity 30, so exactly 30 — not 60 — further
same-instant calls are admitted before rejection resumes. -/
theorem claim_C1_amended :
    (∀ j : ℕ, j < 30 →
        (take (runTakes (newRateLimiter 60 0) (List.replicate j ("a", 60, 0)))
          "a" 60 0).allowed = true) ∧
    (take (runTakes (newRateLimiter 60 0) (List.replicate 30 ("a", 60, 0)))
        "a" 60 0).allowed = false ∧
    secondNs ≤ (take (runTakes (newRateLimiter 60 0)
        (List.replicate 30 ("a", 60, 0))) "a" 60 0).retryAfter ∧
    (∀ j : ℕ, j < 30 →
        (take (runTakes (newRateLimiter 60 0)
            (List.replicate 31 ("a", 60, 0) ++ List.replicate j ("a", 60, minuteNs)))
          "a" 60 minuteNs).allowed = true) ∧
    (take (runTakes (newRateLimiter 60 0)
        (List.replicate 31 ("a", 60, 0) ++ List.replicate 30 ("a", 60, minuteNs)))
      "a" 60 minuteNs).allowed = false := by
  refine ⟨?_, ?_, ?_, ?_, ?_⟩
  · intro j hj
    match j with
    | 0 =>
        show (take (newRateLimiter 60 0) "a" 60 0).allowed = true
        rw [scenario60_create]
    | m + 1 =>
        have hm : m ≤ 28 := by omega
        have hmQ : (m : ℚ) ≤ 28 := by exact_mod_cast hm
        rw [scenario60_phase1 m (by omega)]
        rw [take_existing_same_now ⟨[("a", ⟨29 - (m : ℚ), 0, 0⟩)], 60, 10000, 0⟩
          "a" 60 0 ⟨29 - (m : ℚ), 0, 0⟩
          (by norm_num [bucketCleanupInterval, minuteNs]) (by simp [assocFind]) rfl,
          if_pos (by show (1 : ℚ) ≤ 29 - (m : ℚ); linarith)]
  · rw [scenario60_state30, scenario60_reject31]
  · rw [scenario60_state30, scenario60_reject31]
  · intro j hj
    rw [runTakes_append, scenario60_state31]
    match j with
    | 0 =>
        show (take ⟨[("a", ⟨0, 0, 0⟩)], 60, 10000, 0⟩ "a" 60 minuteNs).allowed = true
        rw [scenario60_refill]
    | m + 1 =>
        have hm : m ≤ 28 := by omega
        have hmQ : (m : ℚ) ≤ 28 := by exact_mod_cast hm
        rw [scenario60_phase2 m (by omega)]
        rw [take_existing_same_now
          ⟨[("a", ⟨29 - (m : ℚ), minuteNs, minuteNs⟩)], 60, 10000, 0⟩
          "a" 60 minuteNs ⟨29 - (m : ℚ), minuteNs, minuteNs⟩
          (by norm_num [bucketCleanupInterval, minuteNs]) (by simp [assocFind]) rfl,
          if_pos (by show (1 : ℚ) ≤ 29 - (m : ℚ); linarith)]
  · rw [scenario60_state61, scenario60_reject62]

/-- C1 witness: the very first call of the scenario is admitted. -/
theorem claim_C1_witness :
    (take (runTakes (newRateLimiter 60 0) (List.replicate 0 ("a", 60, 0)))
      "a" 60 0).allowed = true :=
  claim_C1_amended.1 0 (by decide)

/-- C1 counterexample to the claim as stated: the 31st call issued after
the one-minute advance (postfixed to the 31-call opening burst) is
rejected, so it is false that 60 further calls all return
`allowed = true` — the refill was capped at the burst capacity of 30. -/
theorem claim_C1_counterexample :
    (take (runTakes (newRateLimiter 60 0)
        (List.replicate 31 ("a", 60, 0) ++ List.replicate 30 ("a", 60, minuteNs)))
      "a" 60 minuteNs).allowed = false := by
  rw [scenario60_state61, scenario60_reject62]

/-! ## The decision bucket and the retry computation (C6) -/

theorem take_of_decisionBucket (s : RateLimiter) (key : String) (rate now : ℤ)
    (b : Bucket) (h : decisionBucket s key rate now = some b) :
    (take s key rate now).allowed = decide (1 ≤ b.tokens) ∧
    (take s key rate now).retryAfter =
      (if 1 ≤ b.tokens then 0 else rejectRetry rate b.tokens) := by
  rw [take]
  cases hfind : assocFind key (cleanupStep s now).buckets with
  | some b₀ =>
      simp only [decisionBucket, hfind, Option.some.injEq] at h
      subst h
      by_cases ht : 1 ≤ (refillBucket rate now { b₀ with accessed := now }).tokens
      · simp [takeAfterCleanup, hfind, consumeStep, ht]
      · simp [takeAfterCleanup, hfind, consumeStep, ht]
  | none =>
      cases hres : resolvedTable (cleanupStep s now) with
      | none => simp [decisionBucket, hfind, hres] at h
      | some l =>
          simp only [decisionBucket, hfind, hres, Option.some.injEq] at h
          subst h
          by_cases ht : 1 ≤ (refillBucket rate now
              ⟨((dynBurst rate : ℤ) : ℚ), now, now⟩).tokens
          · simp [takeAfterCleanup, hfind, hres, consumeStep, ht]
          · simp [takeAfterCleanup, hfind, hres, consumeStep, ht]

/-- C6 (amended): a call with rate `r > 0` rejected on the token-deficit
path with decision-time tokens `x < 1` returns exactly the duration
`(1-x)/r` minutes truncated toward zero to whole nanoseconds, floored at
one second.  Hence `retryAfter` is at least that truncation and at least
one second — but, because of the truncation, it can undercut the exact
value of `(1-x)/r` minutes by a fraction of a nanosecond. -/
theorem claim_C6_amended (s : RateLimiter) (key : String) (r now : ℤ) (b : Bucket)
    (_hr : 0 < r) (hdb : decisionBucket s key r now = some b) (hx : b.tokens < 1) :
    (take s key r now).allowed = false ∧
    (take s key r now).retryAfter =
      (if goDuration ((1 - b.tokens) / (r : ℚ) * (minuteNs : ℚ)) < secondNs
       then secondNs
       else goDuration ((1 - b.tokens) / (r : ℚ) * (minuteNs : ℚ))) ∧
    goDuration ((1 - b.tokens) / (r : ℚ) * (minuteNs : ℚ)) ≤
      (take s key r now).retryAfter ∧
    secondNs ≤ (take s key r now).retryAfter := by
  obtain ⟨ha, hretry⟩ := take_of_decisionBucket s key r now b hdb
  have hnle : ¬ 1 ≤ b.tokens := not_le.mpr hx
  rw [ha, hretry, if_neg hnle]
  refine ⟨by simp [hnle], by simp [rejectRetry], ?_, secondNs_le_rejectRetry r b.tokens⟩
  simp only [rejectRetry]
  split
  · omega
  · exact le_refl _

theorem scenario7_create :
    take (newRateLimiter 600 0) "k" 7 0 =
      ⟨true, 0, ⟨[("k", ⟨2, 0, 0⟩)], 600, 10000, 0⟩⟩ := by
  rw [take_create (newRateLimiter 600 0) "k" 7 0
    (by norm_num [newRateLimiter, bucketCleanupInterval, minuteNs]) rfl
    (by norm_num [newRateLimiter, defaultMaxBuckets])]
  have hdb : dynBurst 7 = 3 := by norm_num [dynBurst, goDiv2, Int.tdiv]
  norm_num [newRateLimiter, defaultMaxBuckets, hdb]

theorem scenario7_state3 :
    runTakes (newRateLimiter 600 0) (List.replicate 3 ("k", 7, 0)) =
      ⟨[("k", ⟨0, 0, 0⟩)], 600, 10000, 0⟩ := by
  rw [show (3 : ℕ) = 2 + 1 from rfl, List.replicate_succ]
  show runTakes (take (newRateLimiter 600 0) "k" 7 0).state _ = _
  rw [scenario7_create]
  have hdrain := runTakes_drain "k" 7 0 2 ⟨[("k", ⟨2, 0, 0⟩)], 600, 10000, 0⟩ 2
    (by norm_num [bucketCleanupInterval, minuteNs]) (by simp [assocFind])
    (by norm_num)
  rw [hdrain]
  norm_num [assocUpdate]

theorem scenario7_decision :
    decisionBucket ⟨[("k", ⟨0, 0, 0⟩)], 600, 10000, 0⟩ "k" 7 0 =
      some ⟨0, 0, 0⟩ := by
  have h0 : cleanupStep ⟨[("k", ⟨0, 0, 0⟩)], 600, 10000, 0⟩ 0 =
      ⟨[("k", ⟨0, 0, 0⟩)], 600, 10000, 0⟩ :=
    cleanupStep_of_no_sweep _ 0 (by norm_num [bucketCleanupInterval, minuteNs])
  simp [decisionBucket, h0, assocFind, refillBucket]

theorem scenario7_reject :
    take ⟨[("k", ⟨0, 0, 0⟩)], 600, 10000, 0⟩ "k" 7 0 =
      ⟨false, 8571428571, ⟨[("k", ⟨0, 0, 0⟩)], 600, 10000, 0⟩⟩ := by
  rw [take_existing_same_now ⟨[("k", ⟨0, 0, 0⟩)], 600, 10000, 0⟩ "k" 7 0 ⟨0, 0, 0⟩
    (by norm_num [bucketCleanupInterval, minuteNs]) (by simp [assocFind]) rfl,
    if_neg (by norm_num)]
  have hrr : rejectRetry 7 0 = 8571428571 := by
    norm_num [rejectRetry, goDuration, minuteNs, secondNs]
  simp [assocUpdate, hrr]

/-- C6 counterexample to the claim as stated: on the fourth call for key
"k" at rate 7 (decision-time tokens `x = 0`, reached from a fresh
limiter), the returned `retryAfter` is 8571428571 ns, and
`7 * 8571428571 = 59999999997 < 60000000000`, i.e. the returned value is
strictly below `(1-x)/r = 1/7` minutes — the claimed
`retryAfter ≥ (1-x)/r minutes` fails (by the sub-nanosecond loss of the
duration truncation). -/
theorem claim_C6_counterexample :
    (take (runTakes (newRateLimiter 600 0) (List.replicate 3 ("k", 7, 0)))
        "k" 7 0).allowed = false ∧
    decisionBucket (runTakes (newRateLimiter 600 0) (List.replicate 3 ("k", 7, 0)))
        "k" 7 0 = some ⟨0, 0, 0⟩ ∧
    (take (runTakes (newRateLimiter 600 0) (List.replicate 3 ("k", 7, 0)))
        "k" 7 0).retryAfter * 7 < minuteNs := by
  rw [scenario7_state3, scenario7_reject]
  refine ⟨rfl, scenario7_decision, ?_⟩
  norm_num [minuteNs]

/-- C6 witness: the amended statement instantiated at the same concrete
rejected call (rate 7, decision tokens 0). -/
theorem claim_C6_witness :
    (take ⟨[("k", ⟨0, 0, 0⟩)], 600, 10000, 0⟩ "k" 7 0).allowed = false ∧
    (take ⟨[("k", ⟨0, 0, 0⟩)], 600, 10000, 0⟩ "k" 7 0).retryAfter =
      (if goDuration ((1 - Bucket.tokens ⟨0, 0, 0⟩) / ((7 : ℤ) : ℚ) * (minuteNs : ℚ)) <
          secondNs
       then secondNs
       else goDuration ((1 - Bucket.tokens ⟨0, 0, 0⟩) / ((7 : ℤ) : ℚ) * (minuteNs : ℚ))) ∧
    goDuration ((1 - Bucket.tokens ⟨0, 0, 0⟩) / ((7 : ℤ) : ℚ) * (minuteNs : ℚ)) ≤
      (take ⟨[("k", ⟨0, 0, 0⟩)], 600, 10000, 0⟩ "k" 7 0).retryAfter ∧
    secondNs ≤ (take ⟨[("k", ⟨0, 0, 0⟩)], 600, 10000, 0⟩ "k" 7 0).retryAfter :=
  claim_C6_amended ⟨[("k", ⟨0, 0, 0⟩)], 600, 10000, 0⟩ "k" 7 0 ⟨0, 0, 0⟩
    (by decide) scenario7_decision (by norm_num)

/-- C7: when a call's `now` is more than the cleanup interval past
`lastCleanup`, `take` performs the sweep before any admission work: the
post-sweep table keeps exactly the buckets not strictly older than the
inactivity threshold (so no in-threshold bucket is dropped),
`lastCleanup` is stamped to `now`, and none of this depends on the
triggering key (the sweep is computed from the state and `now` alone). -/
theorem claim_C7 (s : RateLimiter) (key : String) (rate now : ℤ)
    (h : bucketCleanupInterval < now - s.lastCleanup) :
    take s key rate now = takeAfterCleanup (cleanupStep s now) key rate now ∧
    (cleanupStep s now).lastCleanup = now ∧
    (∀ e : String × Bucket,
        e ∈ (cleanupStep s now).buckets ↔
          e ∈ s.buckets ∧ ¬ e.2.accessed < now - bucketInactiveThreshold) := by
  refine ⟨rfl, ?_, ?_⟩
  · simp [cleanupStep, h]
  · intro e
    simp only [cleanupStep, if_pos h]
    exact mem_cleanupStaleBuckets now s.buckets e

/-- C7 witness: a sweep triggered 16 minutes after the last one, with one
15-minutes-stale bucket and one fresh bucket in the table. -/
theorem claim_C7_witness :
    take ⟨[("old", ⟨5, 0, 0⟩), ("fresh", ⟨5, 600000000000, 600000000000⟩)],
        600, 10000, 0⟩ "z" 600 960000000000 =
      takeAfterCleanup
        (cleanupStep ⟨[("old", ⟨5, 0, 0⟩),
          ("fresh", ⟨5, 600000000000, 600000000000⟩)], 600, 10000, 0⟩ 960000000000)
        "z" 600 960000000000 ∧
    (cleanupStep ⟨[("old", ⟨5, 0, 0⟩), ("fresh", ⟨5, 600000000000, 600000000000⟩)],
        600, 10000, 0⟩ 960000000000).lastCleanup = 960000000000 ∧
    (∀ e : String × Bucket,
        e ∈ (cleanupStep ⟨[("old", ⟨5, 0, 0⟩),
            ("fresh", ⟨5, 600000000000, 600000000000⟩)], 600, 10000, 0⟩
            960000000000).buckets ↔
          e ∈ [("old", (⟨5, 0, 0⟩ : Bucket)),
            ("fresh", ⟨5, 600000000000, 600000000000⟩)] ∧
          ¬ e.2.accessed < 960000000000 - bucketInactiveThreshold) :=
  claim_C7 ⟨[("old", ⟨5, 0, 0⟩), ("fresh", ⟨5, 600000000000, 600000000000⟩)],
    600, 10000, 0⟩ "z" 600 960000000000
    (by decide)

/-! ## The token-range invariant (C2) -/

theorem assocFind_mem (k : String) (b : Bucket) (l : List (String × Bucket))
    (h : assocFind k l = some b) : (k, b) ∈ l := by
  induction l with
  | nil => simp [assocFind] at h
  | cons e es ih =>
      obtain ⟨k₀, b₀⟩ := e
      by_cases he : k₀ = k
      · simp only [assocFind, if_pos he, Option.some.injEq] at h
        subst he
        subst h
        exact List.mem_cons_self _ _
      · simp only [assocFind, if_neg he] at h
        exact List.mem_cons_of_mem _ (ih h)

theorem mem_assocUpdate (k : String) (b : Bucket) (l : List (String × Bucket))
    (e : String × Bucket) (h : e ∈ assocUpdate k b l) : e = (k, b) ∨ e ∈ l := by
  induction l with
  | nil => simp [assocUpdate] at h
  | cons f fs ih =>
      by_cases hf : f.1 = k
      · simp only [assocUpdate, if_pos hf] at h
        rcases List.mem_cons.mp h with h1 | h1
        · exact Or.inl h1
        · exact Or.inr (List.mem_cons_of_mem f h1)
      · simp only [assocUpdate, if_neg hf] at h
        rcases List.mem_cons.mp h with h1 | h1
        · exact Or.inr (h1 ▸ List.mem_cons_self f fs)
        · rcases ih h1 with h2 | h2
          · exact Or.inl h2
          · exact Or.inr (List.mem_cons_of_mem f h2)

theorem resolvedTable_mem (s1 : RateLimiter) (l : List (String × Bucket))
    (htab : resolvedTable s1 = some l) (e : String × Bucket) (he : e ∈ l) :
    e ∈ s1.buckets := by
  simp only [resolvedTable] at htab
  split at htab
  · simp only [evictOldestBucket] at htab
    cases ho : oldestEntry s1.buckets with
    | none => simp [ho] at htab
    | some f =>
        obtain ⟨k₀, b₀⟩ := f
        simp only [ho] at htab
        split at htab
        · exact absurd htab (by simp)
        · cases htab
          exact mem_assocErase k₀ _ e he
  · cases htab
    exact he

theorem mem_cleanupStep (s : RateLimiter) (now : ℤ) (e : String × Bucket)
    (he : e ∈ (cleanupStep s now).buckets) : e ∈ s.buckets := by
  simp only [cleanupStep] at he
  split at he
  · exact ((mem_cleanupStaleBuckets _ _ e).mp he).1
  · exact he

theorem refillBucket_bounds (r now : ℤ) (b : Bucket) (hr : 0 ≤ r)
    (h0 : 0 ≤ b.tokens) (h1 : b.tokens ≤ maxTokensQ r) :
    0 ≤ (refillBucket r now b).tokens ∧
    (refillBucket r now b).tokens ≤ maxTokensQ r := by
  have hrQ : (0 : ℚ) ≤ (r : ℚ) := by exact_mod_cast hr
  simp only [refillBucket]
  split_ifs with he hc
  · dsimp only
    exact ⟨by linarith [one_le_maxTokensQ r], le_refl _⟩
  · dsimp only
    have hm := mul_nonneg (le_of_lt he) hrQ
    exact ⟨by linarith, not_lt.mp hc⟩
  · exact ⟨h0, h1⟩

theorem consumeStep_bucket_bounds (r : ℤ) (b : Bucket) (M : ℚ)
    (h0 : 0 ≤ b.tokens) (h1 : b.tokens ≤ M) :
    0 ≤ (consumeStep r b).2.2.tokens ∧ (consumeStep r b).2.2.tokens ≤ M := by
  simp only [consumeStep]
  split_ifs with ht
  · dsimp only
    exact ⟨by linarith, by linarith⟩
  · exact ⟨h0, h1⟩

theorem freshBucket_bounds (r : ℤ) :
    0 ≤ ((dynBurst r : ℤ) : ℚ) ∧ ((dynBurst r : ℤ) : ℚ) ≤ maxTokensQ r := by
  rw [maxTokensQ_eq_dynBurst]
  have h := one_le_dynBurst r
  constructor
  · exact_mod_cast le_trans zero_le_one h
  · exact le_refl _

theorem take_tokensWithin (s : RateLimiter) (k : String) (r now : ℤ)
    (hr : 0 ≤ r) (hs : tokensWithin r s) :
    tokensWithin r (take s k r now).state := by
  have hs1 : tokensWithin r (cleanupStep s now) :=
    fun e he => hs e (mem_cleanupStep s now e he)
  rw [take]
  cases hfind : assocFind k (cleanupStep s now).buckets with
  | some b =>
      have hb := hs1 (k, b) (assocFind_mem k b _ hfind)
      have hb2 := refillBucket_bounds r now { b with accessed := now } hr hb.1 hb.2
      have hb3 := consumeStep_bucket_bounds r
        (refillBucket r now { b with accessed := now }) (maxTokensQ r) hb2.1 hb2.2
      intro e he
      simp only [takeAfterCleanup, hfind] at he
      rcases mem_assocUpdate _ _ _ e he with h1 | h1
      · rw [h1]
        exact hb3
      · exact hs1 e h1
  | none =>
      cases hres : resolvedTable (cleanupStep s now) with
      | none =>
          intro e he
          simp only [takeAfterCleanup, hfind, hres] at he
          exact hs1 e he
      | some l =>
          have hfb := freshBucket_bounds r
          have hb2 := refillBucket_bounds r now
            ⟨((dynBurst r : ℤ) : ℚ), now, now⟩ hr hfb.1 hfb.2
          have hb3 := consumeStep_bucket_bounds r
            (refillBucket r now ⟨((dynBurst r : ℤ) : ℚ), now, now⟩)
            (maxTokensQ r) hb2.1 hb2.2
          intro e he
          simp only [takeAfterCleanup, hfind, hres] at he
          rcases List.mem_append.mp he with h1 | h1
          · exact hs1 e (resolvedTable_mem _ l hres e h1)
          · rcases List.mem_singleton.mp h1 with h2
            rw [h2]
            exact hb3

theorem decisionBucket_bounds (s : RateLimiter) (k : String) (r now : ℤ)
    (b : Bucket) (hr : 0 ≤ r) (hs : tokensWithin r s)
    (h : decisionBucket s k r now = some b) :
    0 ≤ b.tokens ∧ b.tokens ≤ maxTokensQ r := by
  have hs1 : tokensWithin r (cleanupStep s now) :=
    fun e he => hs e (mem_cleanupStep s now e he)
  cases hfind : assocFind k (cleanupStep s now).buckets with
  | some b₀ =>
      simp only [decisionBucket, hfind, Option.some.injEq] at h
      subst h
      have hb := hs1 (k, b₀) (assocFind_mem k b₀ _ hfind)
      exact refillBucket_bounds r now { b₀ with accessed := now } hr hb.1 hb.2
  | none =>
      cases hres : resolvedTable (cleanupStep s now) with
      | none => simp [decisionBucket, hfind, hres] at h
      | some l =>
          simp only [decisionBucket, hfind, hres, Option.some.injEq] at h
          subst h
          have hfb := freshBucket_bounds r
          exact refillBucket_bounds r now
            ⟨((dynBurst r : ℤ) : ℚ), now, now⟩ hr hfb.1 hfb.2

theorem runTakes_tokensWithin (r : ℤ) (hr : 0 ≤ r) :
    ∀ (calls : List Call) (s : RateLimiter), (∀ c ∈ calls, c.2.1 = r) →
      tokensWithin r s → tokensWithin r (runTakes s calls) := by
  intro calls
  induction calls with
  | nil => exact fun s _ hs => hs
  | cons c cs ih =>
      intro s hc hs
      show tokensWithin r (runTakes (take s c.1 c.2.1 c.2.2).state cs)
      apply ih _ fun d hd => hc d (List.mem_cons_of_mem c hd)
      rw [hc c (List.mem_cons_self _ _)]
      exact take_tokensWithin s c.1 r c.2.2 hr hs

/-- C2 (amended): for call sequences that use one fixed nonnegative rate
`r`, every bucket satisfies `0 ≤ tokens ≤ burstCapacity(r)` after any
prefix of calls, and the decision-time token count of any next call also
lies within those bounds.  (The original claim also covered sequences
mixing different rates per key; those can violate the upper bound, since
`take` re-caps the tokens only when refill time has elapsed.) -/
theorem claim_C2_amended (r : ℤ) (s : RateLimiter) (calls : List Call)
    (hr : 0 ≤ r) (hcalls : ∀ c ∈ calls, c.2.1 = r) (hs : tokensWithin r s) :
    tokensWithin r (runTakes s calls) ∧
    ∀ (k : String) (now : ℤ) (b : Bucket),
      decisionBucket (runTakes s calls) k r now = some b →
      0 ≤ b.tokens ∧ b.tokens ≤ maxTokensQ r := by
  have h1 := runTakes_tokensWithin r hr calls s hcalls hs
  exact ⟨h1, fun k now b hb => decisionBucket_bounds _ k r now b hr h1 hb⟩

/-- C2 witness: one call at rate 60 on a fresh limiter. -/
theorem claim_C2_witness :
    tokensWithin 60 (runTakes (newRateLimiter 60 0) [("a", 60, 0)]) ∧
    ∀ (k : String) (now : ℤ) (b : Bucket),
      decisionBucket (runTakes (newRateLimiter 60 0) [("a", 60, 0)]) k 60 now =
        some b →
      0 ≤ b.tokens ∧ b.tokens ≤ maxTokensQ 60 :=
  claim_C2_amended 60 (newRateLimiter 60 0) [("a", 60, 0)] (by decide)
    (by intro c hc; rw [List.mem_singleton.mp hc])
    (by intro e he; simp [newRateLimiter] at he)

/-- C2 counterexample to the claim as stated: create key "k" with rate
100 (the bucket is left with 49 tokens), then call again for "k" with
rate 10 at the same instant.  At the decision point of that second call
the bucket holds 49 tokens, but `burstCapacity(10) = 5`: the claimed
bound `tokens ≤ burstCapacity(rate of the call)` fails for sequences
that change the rate of a key (no time has elapsed, so the refill's cap
was never applied). -/
theorem claim_C2_counterexample :
    decisionBucket (runTakes ⟨[], 600, 10000, 0⟩ [("k", 100, 0)]) "k" 10 0 =
      some ⟨49, 0, 0⟩ ∧
    ¬ ((49 : ℚ) ≤ maxTokensQ 10) := by
  have h1 : runTakes ⟨[], 600, 10000, 0⟩ [("k", 100, 0)] =
      ⟨[("k", ⟨49, 0, 0⟩)], 600, 10000, 0⟩ := by
    show (take ⟨[], 600, 10000, 0⟩ "k" 100 0).state = _
    rw [take_create ⟨[], 600, 10000, 0⟩ "k" 100 0
      (by norm_num [bucketCleanupInterval, minuteNs]) rfl (by norm_num)]
    have hdb : dynBurst 100 = 50 := by norm_num [dynBurst, goDiv2, Int.tdiv]
    norm_num [hdb]
  rw [h1]
  constructor
  · have h0 : cleanupStep ⟨[("k", ⟨49, 0, 0⟩)], 600, 10000, 0⟩ 0 =
        ⟨[("k", ⟨49, 0, 0⟩)], 600, 10000, 0⟩ :=
      cleanupStep_of_no_sweep _ 0 (by norm_num [bucketCleanupInterval, minuteNs])
    simp [decisionBucket, h0, assocFind, refillBucket]
  · norm_num [maxTokensQ, goDiv2, Int.tdiv]

/-! ## Table size, eviction, and the bounded-memory scenario (C4) -/

theorem assocErase_cons_self (k : String) (e : String × Bucket)
    (es : List (String × Bucket)) (h : e.1 = k) :
    assocErase k (e :: es) = es := by
  simp [assocErase, h]

theorem assocFind_isSome_of_mem (v : String) (bv : Bucket)
    (l : List (String × Bucket)) (h : (v, bv) ∈ l) :
    ∃ b, assocFind v l = some b := by
  induction l with
  | nil => simp at h
  | cons e es ih =>
      by_cases he : e.1 = v
      · exact ⟨e.2, by simp [assocFind, he]⟩
      · have hstep : assocFind v (e :: es) = assocFind v es := by
          simp [assocFind, he]
        rw [hstep]
        refine ih ?_
        rcases List.mem_cons.mp h with h1 | h1
        · exact absurd (congrArg Prod.fst h1).symm he
        · exact h1

theorem take_state_maxBuckets (s : RateLimiter) (k : String) (r now : ℤ) :
    (take s k r now).state.maxBuckets = s.maxBuckets := by
  rw [take]
  cases hfind : assocFind k (cleanupStep s now).buckets with
  | some b => simp [takeAfterCleanup, hfind, cleanupStep_maxBuckets]
  | none =>
      cases hres : resolvedTable (cleanupStep s now) with
      | none => simp [takeAfterCleanup, hfind, hres, cleanupStep_maxBuckets]
      | some l => simp [takeAfterCleanup, hfind, hres, cleanupStep_maxBuckets]

theorem take_buckets_length (s : RateLimiter) (k : String) (r now : ℤ)
    (h : s.buckets.length ≤ s.maxBuckets) :
    (take s k r now).state.buckets.length ≤ s.maxBuckets := by
  have hs1 : (cleanupStep s now).buckets.length ≤ s.maxBuckets :=
    le_trans (cleanupStep_buckets_length_le s now) h
  rw [take]
  cases hfind : assocFind k (cleanupStep s now).buckets with
  | some b =>
      simp only [takeAfterCleanup, hfind]
      simpa [assocUpdate_length] using hs1
  | none =>
      cases hres : resolvedTable (cleanupStep s now) with
      | none =>
          simp only [takeAfterCleanup, hfind, hres]
          exact hs1
      | some l =>
          simp only [takeAfterCleanup, hfind, hres, List.length_append,
            List.length_singleton]
          simp only [resolvedTable] at hres
          split at hres
          case isTrue hfull =>
            simp only [evictOldestBucket] at hres
            cases ho : oldestEntry (cleanupStep s now).buckets with
            | none => simp [ho] at hres
            | some f =>
                obtain ⟨v, bv⟩ := f
                simp only [ho] at hres
                split at hres
                · exact absurd hres (by simp)
                · cases hres
                  obtain ⟨b', hb'⟩ :=
                    assocFind_isSome_of_mem v bv _ (oldestEntry_mem _ _ ho)
                  have hlen := assocErase_length v b' _ hb'
                  omega
          case isFalse hroom =>
            cases hres
            rw [cleanupStep_maxBuckets] at hroom
            omega

theorem runTakes_maxBuckets :
    ∀ (calls : List Call) (s : RateLimiter),
      (runTakes s calls).maxBuckets = s.maxBuckets := by
  intro calls
  induction calls with
  | nil => exact fun s => rfl
  | cons c cs ih =>
      intro s
      show (runTakes (take s c.1 c.2.1 c.2.2).state cs).maxBuckets = _
      rw [ih, take_state_maxBuckets]

theorem runTakes_length_le :
    ∀ (calls : List Call) (s : RateLimiter),
      s.buckets.length ≤ s.maxBuckets →
      (runTakes s calls).buckets.length ≤ s.maxBuckets := by
  intro calls
  induction calls with
  | nil => exact fun s h => h
  | cons c cs ih =>
      intro s h
      show (runTakes (take s c.1 c.2.1 c.2.2).state cs).buckets.length ≤ s.maxBuckets
      have h1 := take_buckets_length s c.1 c.2.1 c.2.2 h
      have h2 := ih (take s c.1 c.2.1 c.2.2).state
        (by rw [take_state_maxBuckets]; exact h1)
      rw [take_state_maxBuckets] at h2
      exact h2

theorem take_evict_success (s : RateLimiter) (key : String) (rate now : ℤ)
    (v : String) (bv : Bucket)
    (h0 : now - s.lastCleanup ≤ bucketCleanupInterval)
    (h1 : assocFind key s.buckets = none)
    (h2 : s.maxBuckets ≤ s.buckets.length)
    (hold : oldestEntry s.buckets = some (v, bv)) (hv : v ≠ "") :
    take s key rate now =
      ⟨true, 0, { s with
        buckets := assocErase v s.buckets ++
          [(key, ⟨((dynBurst rate : ℤ) : ℚ) - 1, now, now⟩)] }⟩ := by
  have htab : resolvedTable s = some (assocErase v s.buckets) := by
    simp [resolvedTable, h2, evictOldestBucket, hold, hv]
  have hfresh : (1 : ℚ) ≤ ((dynBurst rate : ℤ) : ℚ) := by
    exact_mod_cast one_le_dynBurst rate
  rw [take, cleanupStep_of_no_sweep s now h0]
  simp only [takeAfterCleanup, h1, htab]
  simp [refillBucket, consumeStep, hfresh]

theorem take_evict_fail (s : RateLimiter) (key : String) (rate now : ℤ)
    (v : String) (bv : Bucket)
    (h0 : now - s.lastCleanup ≤ bucketCleanupInterval)
    (h1 : assocFind key s.buckets = none)
    (h2 : s.maxBuckets ≤ s.buckets.length)
    (hold : oldestEntry s.buckets = some (v, bv)) (hv : v = "") :
    take s key rate now = ⟨false, minuteNs, s⟩ := by
  have htab : resolvedTable s = none := by
    simp [resolvedTable, h2, evictOldestBucket, hold, hv]
  rw [take, cleanupStep_of_no_sweep s now h0]
  simp only [takeAfterCleanup, h1, htab]

/-- Inserting a batch of distinct unseen keys while the table has room:
each call appends its freshly created (and once-consumed) bucket. -/
theorem runTakes_inserts :
    ∀ (calls : List Call) (s : RateLimiter),
      (∀ c ∈ calls, c.2.2 - s.lastCleanup ≤ bucketCleanupInterval) →
      (∀ c ∈ calls, assocFind c.1 s.buckets = none) →
      (calls.map Prod.fst).Nodup →
      s.buckets.length + calls.length ≤ s.maxBuckets →
      runTakes s calls = { s with buckets := s.buckets ++ calls.map entryOf } := by
  intro calls
  induction calls with
  | nil =>
      intro s _ _ _ _
      simp [runTakes]
  | cons c cs ih =>
      intro s hsweep hfind hnodup hlen
      have hc : take s c.1 c.2.1 c.2.2 =
          ⟨true, 0, { s with buckets :=
            s.buckets ++ [(c.1, ⟨((dynBurst c.2.1 : ℤ) : ℚ) - 1, c.2.2, c.2.2⟩)] }⟩ :=
        take_create s c.1 c.2.1 c.2.2 (hsweep c (List.mem_cons_self _ _))
          (hfind c (List.mem_cons_self _ _)) (by simp at hlen; omega)
      show runTakes (take s c.1 c.2.1 c.2.2).state cs = _
      rw [hc]
      have hcnotin : c.1 ∉ cs.map Prod.fst := (List.nodup_cons.mp hnodup).1
      have hrec := ih { s with buckets :=
          s.buckets ++ [(c.1, ⟨((dynBurst c.2.1 : ℤ) : ℚ) - 1, c.2.2, c.2.2⟩)] }
        (fun d hd => hsweep d (List.mem_cons_of_mem c hd))
        (fun d hd => by
          have hne : d.1 ≠ c.1 :=
            fun heq => hcnotin (heq ▸ List.mem_map_of_mem Prod.fst hd)
          simpa [assocFind_append_singleton_ne c.1 d.1 _ s.buckets hne] using
            hfind d (List.mem_cons_of_mem c hd))
        (List.nodup_cons.mp hnodup).2
        (by simp at hlen ⊢; omega)
      rw [hrec]
      simp [List.append_assoc, entryOf]

/-- C4 (amended): the table size never exceeds `maxBuckets` after any
call sequence; and inserting `maxBuckets + 1` distinct previously-unseen
keys with *non-empty* key strings into an empty limiter (at nondecreasing
instants, within the cleanup interval) leaves exactly `maxBuckets`
buckets, with the oldest-accessed bucket (the first-created one, which
the scan picks first among ties) evicted and the last key inserted.  The
non-empty-key proviso is forced by the eviction sentinel: an
oldest-accessed bucket keyed by the empty string is never evicted and
the new key is rejected instead — the table size is still `maxBuckets`,
but no eviction happens. -/
theorem claim_C4_amended :
    (∀ (s : RateLimiter) (calls : List Call),
        s.buckets.length ≤ s.maxBuckets →
        (runTakes s calls).buckets.length ≤ s.maxBuckets) ∧
    (∀ (s : RateLimiter) (c₀ : Call) (mid : List Call) (cl : Call),
        s.buckets = [] →
        ((c₀ :: mid ++ [cl]).map Prod.fst).Nodup →
        (∀ c ∈ c₀ :: mid ++ [cl], c.1 ≠ "") →
        (∀ c ∈ c₀ :: mid ++ [cl], c.2.2 - s.lastCleanup ≤ bucketCleanupInterval) →
        (∀ c ∈ mid ++ [cl], c₀.2.2 ≤ c.2.2) →
        (c₀ :: mid).length = s.maxBuckets →
        (runTakes s (c₀ :: mid ++ [cl])).buckets = (mid ++ [cl]).map entryOf ∧
        (runTakes s (c₀ :: mid ++ [cl])).buckets.length = s.maxBuckets ∧
        assocFind c₀.1 (runTakes s (c₀ :: mid ++ [cl])).buckets = none) := by
  constructor
  · exact fun s calls h => runTakes_length_le calls s h
  · intro s c₀ mid cl hempty hnodup hne hnosweep htimes hlen
    have hsub : ∀ c, c ∈ c₀ :: mid → c ∈ c₀ :: mid ++ [cl] := by
      intro c hc
      rcases List.mem_cons.mp hc with h | h
      · exact h ▸ List.mem_cons_self _ _
      · exact List.mem_cons_of_mem _ (List.mem_append_left _ h)
    have hmapfull : ((c₀ :: mid ++ [cl]).map Prod.fst) =
        (c₀ :: mid).map Prod.fst ++ [cl.1] := by
      simp
    have hLnodup : ((c₀ :: mid).map Prod.fst).Nodup := by
      rw [hmapfull] at hnodup
      exact hnodup.of_append_left
    have hdisj : cl.1 ∉ (c₀ :: mid).map Prod.fst := by
      rw [hmapfull] at hnodup
      intro hmem
      exact (List.nodup_append.mp hnodup).2.2 hmem (List.mem_singleton_self _)
    have hA : runTakes s (c₀ :: mid) =
        { s with buckets := (c₀ :: mid).map entryOf } := by
      have := runTakes_inserts (c₀ :: mid) s
        (fun c hc => hnosweep c (hsub c hc))
        (fun c hc => by rw [hempty]; rfl)
        hLnodup
        (by rw [hempty]; simp [← hlen])
      rw [this, hempty]
      simp
    have hsplit : c₀ :: mid ++ [cl] = (c₀ :: mid) ++ [cl] := by simp
    rw [hsplit, runTakes_append, hA]
    have hfindcl : assocFind cl.1 ((c₀ :: mid).map entryOf) = none := by
      rw [assocFind_eq_none_iff]
      intro e he
      obtain ⟨c, hc, rfl⟩ := List.mem_map.mp he
      exact fun heq => hdisj (heq ▸ List.mem_map_of_mem Prod.fst hc)
    have hold : oldestEntry ((c₀ :: mid).map entryOf) = some (entryOf c₀) := by
      rw [List.map_cons]
      apply oldestEntry_head
      intro g hg
      obtain ⟨c, hc, rfl⟩ := List.mem_map.mp hg
      exact not_lt.mpr (htimes c (List.mem_append_left _ hc))
    have hev := take_evict_success { s with buckets := (c₀ :: mid).map entryOf }
      cl.1 cl.2.1 cl.2.2 c₀.1 (entryOf c₀).2
      (hnosweep cl (List.mem_cons_of_mem _ (List.mem_append_right _
        (List.mem_singleton_self _))))
      hfindcl
      (by simp [← hlen])
      hold
      (hne c₀ (List.mem_cons_self _ _))
    have hstate : runTakes { s with buckets := (c₀ :: mid).map entryOf } [cl] =
        (take { s with buckets := (c₀ :: mid).map entryOf }
          cl.1 cl.2.1 cl.2.2).state := rfl
    rw [hstate, hev]
    have herase : assocErase c₀.1 ((c₀ :: mid).map entryOf) = mid.map entryOf := by
      rw [List.map_cons]
      exact assocErase_cons_self c₀.1 (entryOf c₀) _ rfl
    have hbuckets : assocErase c₀.1 ((c₀ :: mid).map entryOf) ++
        [(cl.1, ⟨((dynBurst cl.2.1 : ℤ) : ℚ) - 1, cl.2.2, cl.2.2⟩)] =
        (mid ++ [cl]).map entryOf := by
      rw [herase, List.map_append]
      rfl
    refine ⟨hbuckets, ?_, ?_⟩
    · rw [hbuckets]
      simp at hlen ⊢
      omega
    · rw [hbuckets, assocFind_eq_none_iff]
      intro e he
      obtain ⟨c, hc, rfl⟩ := List.mem_map.mp he
      have hLn2 : (c₀.1 :: mid.map Prod.fst).Nodup := by
        simpa [List.map_cons] using hLnodup
      have hc0mid : c₀.1 ∉ mid.map Prod.fst := (List.nodup_cons.mp hLn2).1
      have hc0cl : c₀.1 ≠ cl.1 := by
        intro heq
        exact hdisj (heq ▸ List.mem_map_of_mem Prod.fst (List.mem_cons_self c₀ mid))
      have hc0notin : c₀.1 ∉ (mid ++ [cl]).map Prod.fst := by
        rw [List.map_append]
        intro hmem
        rcases List.mem_append.mp hmem with h1 | h1
        · exact hc0mid h1
        · exact hc0cl (by simpa using h1)
      exact fun heq => hc0notin (heq ▸ List.mem_map_of_mem Prod.fst hc)

/-- C4 witness: an empty limiter with `maxBuckets = 2` and three distinct
non-empty unseen keys — the "a" bucket (oldest) is evicted, "b" and "c"
remain, and the size bound holds for the same run. -/
theorem claim_C4_witness :
    (runTakes ⟨[], 600, 2, 0⟩ [("a", 600, 1), ("b", 600, 2), ("c", 600, 3)]
        ).buckets.length ≤ 2 ∧
    ((runTakes ⟨[], 600, 2, 0⟩
        (("a", 600, 1) :: [("b", 600, 2)] ++ [("c", (600 : ℤ), (3 : ℤ))])).buckets =
      ([("b", 600, 2)] ++ [("c", (600 : ℤ), (3 : ℤ))]).map entryOf ∧
    (runTakes ⟨[], 600, 2, 0⟩
        (("a", 600, 1) :: [("b", 600, 2)] ++ [("c", (600 : ℤ), (3 : ℤ))])).buckets.length = 2 ∧
    assocFind "a" (runTakes ⟨[], 600, 2, 0⟩
        (("a", 600, 1) :: [("b", 600, 2)] ++ [("c", (600 : ℤ), (3 : ℤ))])).buckets = none) :=
  ⟨claim_C4_amended.1 ⟨[], 600, 2, 0⟩ _ (by decide),
   claim_C4_amended.2 ⟨[], 600, 2, 0⟩ ("a", 600, 1) [("b", 600, 2)]
     ("c", 600, 3) rfl (by decide) (by decide) (by decide) (by decide) (by decide)⟩

/-- C4 counterexample to the claim as stated: `maxBuckets = 2`, empty
limiter, three distinct previously-unseen keys `"", "a", "b"`.  The final
insertion must evict the oldest-accessed bucket (key "", accessed at 0),
but the `oldestKey != ""` sentinel makes eviction fail: the table is left
as `["", "a"]` — still `maxBuckets` buckets, yet the oldest-accessed
bucket was *not* evicted and the new key "b" was rejected, contradicting
the claimed outcome. -/
theorem claim_C4_counterexample :
    (runTakes ⟨[], 600, 2, 0⟩
        [("", 600, 0), ("a", 600, 1), ("b", 600, 2)]).buckets.map Prod.fst =
      ["", "a"] ∧
    assocFind "b" (runTakes ⟨[], 600, 2, 0⟩
        [("", 600, 0), ("a", 600, 1), ("b", 600, 2)]).buckets = none ∧
    assocFind "" (runTakes ⟨[], 600, 2, 0⟩
        [("", 600, 0), ("a", 600, 1), ("b", 600, 2)]).buckets =
      some ⟨299, 0, 0⟩ := by
  have h1 : take ⟨[], 600, 2, 0⟩ "" 600 0 =
      ⟨true, 0, ⟨[("", ⟨299, 0, 0⟩)], 600, 2, 0⟩⟩ := by
    rw [take_create ⟨[], 600, 2, 0⟩ "" 600 0
      (by norm_num [bucketCleanupInterval, minuteNs]) rfl (by norm_num)]
    have hdb : dynBurst 600 = 300 := by norm_num [dynBurst, goDiv2, Int.tdiv]
    norm_num [hdb]
  have h2 : take ⟨[("", ⟨299, 0, 0⟩)], 600, 2, 0⟩ "a" 600 1 =
      ⟨true, 0, ⟨[("", ⟨299, 0, 0⟩), ("a", ⟨299, 1, 1⟩)], 600, 2, 0⟩⟩ := by
    rw [take_create ⟨[("", ⟨299, 0, 0⟩)], 600, 2, 0⟩ "a" 600 1
      (by norm_num [bucketCleanupInterval, minuteNs]) (by simp [assocFind])
      (by norm_num)]
    have hdb : dynBurst 600 = 300 := by norm_num [dynBurst, goDiv2, Int.tdiv]
    norm_num [hdb]
  have h3 : take ⟨[("", ⟨299, 0, 0⟩), ("a", ⟨299, 1, 1⟩)], 600, 2, 0⟩ "b" 600 2 =
      ⟨false, minuteNs, ⟨[("", ⟨299, 0, 0⟩), ("a", ⟨299, 1, 1⟩)], 600, 2, 0⟩⟩ := by
    refine take_evict_fail _ "b" 600 2 "" ⟨299, 0, 0⟩
      (by norm_num [bucketCleanupInterval, minuteNs]) (by simp [assocFind])
      (by norm_num) ?_ rfl
    norm_num [oldestEntry]
  have hrun : runTakes ⟨[], 600, 2, 0⟩
      [("", 600, 0), ("a", 600, 1), ("b", 600, 2)] =
      ⟨[("", ⟨299, 0, 0⟩), ("a", ⟨299, 1, 1⟩)], 600, 2, 0⟩ := by
    show (take ((take ((take ⟨[], 600, 2, 0⟩ "" 600 0).state) "a" 600 1).state)
        "b" 600 2).state = _
    rw [h1, h2, h3]
  rw [hrun]
  refine ⟨rfl, by simp [assocFind], by simp [assocFind]⟩

/-! ## Isolation of distinct keys (C8) -/

theorem assocFind_filter_self (A : String) (l : List (String × Bucket)) :
    assocFind A (l.filter fun e => e.1 == A) = assocFind A l := by
  induction l with
  | nil => rfl
  | cons e es ih =>
      by_cases he : e.1 = A
      · simp [List.filter_cons, assocFind, he]
      · simp [List.filter_cons, assocFind, he, ih]

theorem filter_eq_nil_of_find_none (A : String) (l : List (String × Bucket))
    (h : assocFind A l = none) : l.filter (fun e => e.1 == A) = [] := by
  rw [List.filter_eq_nil_iff]
  intro e he
  simp [(assocFind_eq_none_iff A l).mp h e he]

theorem filter_assocUpdate_ne (A k : String) (b : Bucket)
    (l : List (String × Bucket)) (hk : k ≠ A) :
    (assocUpdate k b l).filter (fun e => e.1 == A) =
      l.filter (fun e => e.1 == A) := by
  induction l with
  | nil => rfl
  | cons e es ih =>
      by_cases he : e.1 = k
      · have heA : ¬ e.1 = A := by rw [he]; exact hk
        simp [assocUpdate, he, List.filter_cons, heA, hk]
      · simp only [assocUpdate, if_neg he, List.filter_cons]
        by_cases heA : e.1 = A <;> simp [heA, ih]

theorem filter_assocUpdate_self (A : String) (b : Bucket)
    (l : List (String × Bucket)) :
    (assocUpdate A b l).filter (fun e => e.1 == A) =
      assocUpdate A b (l.filter fun e => e.1 == A) := by
  induction l with
  | nil => rfl
  | cons e es ih =>
      by_cases he : e.1 = A
      · simp [assocUpdate, he, List.filter_cons]
      · simp [assocUpdate, he, List.filter_cons, ih]

theorem map_fst_assocUpdate (k : String) (b : Bucket)
    (l : List (String × Bucket)) :
    (assocUpdate k b l).map Prod.fst = l.map Prod.fst := by
  induction l with
  | nil => rfl
  | cons e es ih =>
      by_cases he : e.1 = k
      · simp [assocUpdate, he]
      · simp [assocUpdate, he, ih]

theorem keys_nodup_append (k : String) (b : Bucket) (l : List (String × Bucket))
    (hk : ∀ e ∈ l, e.1 ≠ k) (hl : (l.map Prod.fst).Nodup) :
    ((l ++ [(k, b)]).map Prod.fst).Nodup := by
  rw [List.map_append]
  rw [List.nodup_append]
  refine ⟨hl, List.nodup_singleton _, ?_⟩
  intro a ha hb
  obtain ⟨e, he, rfl⟩ := List.mem_map.mp ha
  have : e.1 = k := by simpa using hb
  exact hk e he this

theorem length_le_one_of_forall_key (l : List (String × Bucket)) (x : String)
    (h : ∀ e ∈ l, e.1 = x) (hnd : (l.map Prod.fst).Nodup) : l.length ≤ 1 := by
  match l with
  | [] => simp
  | [e] => simp
  | e1 :: e2 :: es =>
      exfalso
      have h1 := h e1 (List.mem_cons_self _ _)
      have h2 := h e2 (List.mem_cons_of_mem _ (List.mem_cons_self _ _))
      rw [List.map_cons, List.map_cons] at hnd
      exact (List.nodup_cons.mp hnd).1
        (by rw [h1, h2]; exact List.mem_cons_self _ _)

theorem take_existing_state (s : RateLimiter) (k : String) (r now : ℤ)
    (b : Bucket) (h0 : now - s.lastCleanup ≤ bucketCleanupInterval)
    (hb : assocFind k s.buckets = some b) :
    ∃ b', (take s k r now).state =
      { s with buckets := assocUpdate k b' s.buckets } := by
  rw [take_existing s k r now b h0 hb]
  dsimp only
  split
  · exact ⟨_, rfl⟩
  · exact ⟨_, rfl⟩

theorem iso_step_A (A B : String) (M : ℕ) (hM : 2 ≤ M) (lc : ℤ)
    (sI sA : RateLimiter) (hinv : isoInv A B M lc sI sA)
    (r t : ℤ) (hns : t - lc ≤ bucketCleanupInterval) :
    isoInv A B M lc (take sI A r t).state (take sA A r t).state := by
  obtain ⟨hfil, hkeys, hnd, hMI, hMA, hlcI, hlcA⟩ := hinv
  have hnsI : t - sI.lastCleanup ≤ bucketCleanupInterval := by rw [hlcI]; exact hns
  have hnsA : t - sA.lastCleanup ≤ bucketCleanupInterval := by rw [hlcA]; exact hns
  cases hbI : assocFind A sI.buckets with
  | some b =>
      have hbA : assocFind A sA.buckets = some b := by
        rw [hfil, assocFind_filter_self]
        exact hbI
      rw [take_existing sI A r t b hnsI hbI, take_existing sA A r t b hnsA hbA]
      dsimp only
      by_cases hcond : 1 ≤ (refillBucket r t { b with accessed := t }).tokens
      · rw [if_pos hcond, if_pos hcond]
        refine ⟨?_, ?_, ?_, hMI, hMA, hlcI, hlcA⟩
        · show assocUpdate A _ sA.buckets = (assocUpdate A _ sI.buckets).filter _
          rw [hfil, filter_assocUpdate_self]
        · intro e he
          rcases mem_assocUpdate _ _ _ e he with h1 | h1
          · left; rw [h1]
          · exact hkeys e h1
        · show ((assocUpdate A _ sI.buckets).map Prod.fst).Nodup
          rw [map_fst_assocUpdate]
          exact hnd
      · rw [if_neg hcond, if_neg hcond]
        refine ⟨?_, ?_, ?_, hMI, hMA, hlcI, hlcA⟩
        · show assocUpdate A _ sA.buckets = (assocUpdate A _ sI.buckets).filter _
          rw [hfil, filter_assocUpdate_self]
        · intro e he
          rcases mem_assocUpdate _ _ _ e he with h1 | h1
          · left; rw [h1]
          · exact hkeys e h1
        · show ((assocUpdate A _ sI.buckets).map Prod.fst).Nodup
          rw [map_fst_assocUpdate]
          exact hnd
  | none =>
      have hbA : assocFind A sA.buckets = none := by
        rw [hfil, assocFind_filter_self]
        exact hbI
      have hAnil : sA.buckets = [] := by
        rw [hfil]
        exact filter_eq_nil_of_find_none A _ hbI
      have hkeysB : ∀ e ∈ sI.buckets, e.1 = B := by
        intro e he
        rcases hkeys e he with h | h
        · exact absurd h ((assocFind_eq_none_iff A sI.buckets).mp hbI e he)
        · exact h
      have hlenI : sI.buckets.length ≤ 1 :=
        length_le_one_of_forall_key sI.buckets B hkeysB hnd
      have hcreateI := take_create sI A r t hnsI hbI (by rw [hMI]; omega)
      have hcreateA := take_create sA A r t hnsA hbA
        (by rw [hAnil, hMA]; simpa using (by omega : 0 < M))
      rw [hcreateI, hcreateA]
      refine ⟨?_, ?_, ?_, hMI, hMA, hlcI, hlcA⟩
      · show sA.buckets ++ _ = (sI.buckets ++ _).filter _
        rw [List.filter_append, hfil]
        simp
      · intro e he
        rcases List.mem_append.mp he with h1 | h1
        · exact hkeys e h1
        · left
          rw [List.mem_singleton.mp h1]
      · exact keys_nodup_append A _ sI.buckets
          ((assocFind_eq_none_iff A sI.buckets).mp hbI) hnd

theorem iso_step_B (A B : String) (M : ℕ) (hM : 2 ≤ M) (lc : ℤ)
    (hAB : A ≠ B) (sI sA : RateLimiter) (hinv : isoInv A B M lc sI sA)
    (r t : ℤ) (hns : t - lc ≤ bucketCleanupInterval) :
    isoInv A B M lc (take sI B r t).state sA := by
  obtain ⟨hfil, hkeys, hnd, hMI, hMA, hlcI, hlcA⟩ := hinv
  have hnsI : t - sI.lastCleanup ≤ bucketCleanupInterval := by rw [hlcI]; exact hns
  have hBA : B ≠ A := Ne.symm hAB
  cases hbI : assocFind B sI.buckets with
  | some b =>
      obtain ⟨b', hstate⟩ := take_existing_state sI B r t b hnsI hbI
      rw [hstate]
      refine ⟨?_, ?_, ?_, hMI, hMA, hlcI, hlcA⟩
      · show sA.buckets = (assocUpdate B b' sI.buckets).filter _
        rw [filter_assocUpdate_ne A B b' sI.buckets hBA, hfil]
      · intro e he
        rcases mem_assocUpdate _ _ _ e he with h1 | h1
        · right; rw [h1]
        · exact hkeys e h1
      · show ((assocUpdate B b' sI.buckets).map Prod.fst).Nodup
        rw [map_fst_assocUpdate]
        exact hnd
  | none =>
      have hkeysA : ∀ e ∈ sI.buckets, e.1 = A := by
        intro e he
        rcases hkeys e he with h | h
        · exact h
        · exact absurd h ((assocFind_eq_none_iff B sI.buckets).mp hbI e he)
      have hlenI : sI.buckets.length ≤ 1 :=
        length_le_one_of_forall_key sI.buckets A hkeysA hnd
      have hcreateI := take_create sI B r t hnsI hbI (by rw [hMI]; omega)
      rw [hcreateI]
      refine ⟨?_, ?_, ?_, hMI, hMA, hlcI, hlcA⟩
      · show sA.buckets = (sI.buckets ++ _).filter _
        rw [List.filter_append, hfil]
        simp [hBA]
      · intro e he
        rcases List.mem_append.mp he with h1 | h1
        · exact hkeys e h1
        · right
          rw [List.mem_singleton.mp h1]
      · exact keys_nodup_append B _ sI.buckets
          (fun e he => by rw [hkeysA e he]; exact hAB) hnd

theorem iso_run (A B : String) (hAB : A ≠ B) (M : ℕ) (hM : 2 ≤ M) (lc : ℤ) :
    ∀ (calls : List Call) (sI sA : RateLimiter),
      (∀ c ∈ calls, c.1 = A ∨ c.1 = B) →
      (∀ c ∈ calls, c.2.2 - lc ≤ bucketCleanupInterval) →
      isoInv A B M lc sI sA →
      isoInv A B M lc (runTakes sI calls)
        (runTakes sA (calls.filter fun c => c.1 == A)) := by
  intro calls
  induction calls with
  | nil => exact fun sI sA _ _ hinv => hinv
  | cons c cs ih =>
      intro sI sA hkeys hns hinv
      rcases hkeys c (List.mem_cons_self _ _) with hcA | hcB
      · have hfilcons : ((c :: cs).filter fun c => c.1 == A) =
            c :: (cs.filter fun c => c.1 == A) := by
          simp [List.filter_cons, hcA]
        rw [hfilcons]
        show isoInv A B M lc (runTakes (take sI c.1 c.2.1 c.2.2).state cs)
          (runTakes (take sA c.1 c.2.1 c.2.2).state (cs.filter fun c => c.1 == A))
        rw [hcA]
        exact ih _ _ (fun d hd => hkeys d (List.mem_cons_of_mem c hd))
          (fun d hd => hns d (List.mem_cons_of_mem c hd))
          (iso_step_A A B M hM lc sI sA hinv c.2.1 c.2.2
            (hns c (List.mem_cons_self _ _)))
      · have hfilcons : ((c :: cs).filter fun c => c.1 == A) =
            (cs.filter fun c => c.1 == A) := by
          have : ¬ c.1 = A := by rw [hcB]; exact Ne.symm hAB
          simp [List.filter_cons, this]
        rw [hfilcons]
        show isoInv A B M lc (runTakes (take sI c.1 c.2.1 c.2.2).state cs)
          (runTakes sA (cs.filter fun c => c.1 == A))
        rw [hcB]
        exact ih _ _ (fun d hd => hkeys d (List.mem_cons_of_mem c hd))
          (fun d hd => hns d (List.mem_cons_of_mem c hd))
          (iso_step_B A B M hM lc hAB sI sA hinv c.2.1 c.2.2
            (hns c (List.mem_cons_self _ _)))

/-- C8 (amended): for two distinct keys A and B, starting from an empty
limiter with `maxBuckets ≥ 2` (so the two keys never trigger eviction)
and with every call inside the cleanup interval (so no sweep fires), the
bucket key A ends up with after the interleaved sequence is identical to
the one after the key-A calls alone, in order: B-calls neither modify nor
delete A's bucket.  (The original unconditional claim is false: when the
table is at `maxBuckets`, a B-call evicts A's bucket, and a B-call can
also sweep a stale A bucket away — both change A's final token count.) -/
theorem claim_C8_amended (A B : String) (calls : List Call) (s : RateLimiter)
    (hAB : A ≠ B)
    (hkeys : ∀ c ∈ calls, c.1 = A ∨ c.1 = B)
    (hempty : s.buckets = [])
    (hmax : 2 ≤ s.maxBuckets)
    (hnosweep : ∀ c ∈ calls, c.2.2 - s.lastCleanup ≤ bucketCleanupInterval) :
    keyTokens (runTakes s calls) A =
      keyTokens (runTakes s (calls.filter fun c => c.1 == A)) A := by
  have hinv : isoInv A B s.maxBuckets s.lastCleanup s s := by
    refine ⟨by rw [hempty]; rfl, ?_, by rw [hempty]; exact List.nodup_nil, rfl, rfl,
      rfl, rfl⟩
    rw [hempty]
    intro e he
    simp at he
  have hfin := iso_run A B hAB s.maxBuckets hmax s.lastCleanup calls s s
    hkeys hnosweep hinv
  obtain ⟨hfil, _, _, _, _, _, _⟩ := hfin
  show ((assocFind A (runTakes s calls).buckets).map Bucket.tokens) =
    ((assocFind A (runTakes s (calls.filter fun c => c.1 == A)).buckets).map
      Bucket.tokens)
  rw [hfil, assocFind_filter_self]

/-- C8 witness: two interleaved keys on a fresh limiter, one call each —
A's final token count matches the A-only run. -/
theorem claim_C8_witness :
    keyTokens (runTakes (newRateLimiter 600 0) [("A", 60, 0), ("B", 60, 0)]) "A" =
      keyTokens (runTakes (newRateLimiter 600 0)
        ([("A", 60, 0), ("B", 60, 0)].filter fun c => c.1 == "A")) "A" :=
  claim_C8_amended "A" "B" [("A", 60, 0), ("B", 60, 0)] (newRateLimiter 600 0)
    (by decide)
    (by decide)
    rfl
    (by decide)
    (by decide)

/-- C8 counterexample to the claim as stated: with `maxBuckets = 1`, the
interleaved sequence A, B, A leaves A with 4 tokens (the B-call evicted
A's bucket, so the last A-call recreated it with a fresh burst), while
the key-A calls alone would leave 3 tokens. -/
theorem claim_C8_counterexample :
    keyTokens (runTakes ⟨[], 600, 1, 0⟩
        [("A", 10, 0), ("B", 10, 0), ("A", 10, 0)]) "A" = some 4 ∧
    keyTokens (runTakes ⟨[], 600, 1, 0⟩
        ([("A", 10, 0), ("B", 10, 0), ("A", 10, 0)].filter
          fun c => c.1 == "A")) "A" = some 3 ∧
    ([("A", 10, 0), ("B", 10, 0), ("A", 10, 0)].filter fun c => c.1 == "A") =
      [("A", 10, 0), ("A", 10, 0)] := by
  have hfl : ([("A", 10, 0), ("B", 10, 0), ("A", 10, 0)].filter
      fun c => c.1 == "A") = [("A", (10 : ℤ), (0 : ℤ)), ("A", 10, 0)] := by decide
  have hdb : dynBurst 10 = 5 := by norm_num [dynBurst, goDiv2, Int.tdiv]
  have h1 : take ⟨[], 600, 1, 0⟩ "A" 10 0 =
      ⟨true, 0, ⟨[("A", ⟨4, 0, 0⟩)], 600, 1, 0⟩⟩ := by
    rw [take_create ⟨[], 600, 1, 0⟩ "A" 10 0
      (by norm_num [bucketCleanupInterval, minuteNs]) rfl (by norm_num)]
    norm_num [hdb]
  have h2 : take ⟨[("A", ⟨4, 0, 0⟩)], 600, 1, 0⟩ "B" 10 0 =
      ⟨true, 0, ⟨[("B", ⟨4, 0, 0⟩)], 600, 1, 0⟩⟩ := by
    rw [take_evict_success ⟨[("A", ⟨4, 0, 0⟩)], 600, 1, 0⟩ "B" 10 0 "A" ⟨4, 0, 0⟩
      (by norm_num [bucketCleanupInterval, minuteNs]) (by simp [assocFind])
      (by norm_num) (by norm_num [oldestEntry]) (by decide)]
    norm_num [hdb, assocErase]
  have h3 : take ⟨[("B", ⟨4, 0, 0⟩)], 600, 1, 0⟩ "A" 10 0 =
      ⟨true, 0, ⟨[("A", ⟨4, 0, 0⟩)], 600, 1, 0⟩⟩ := by
    rw [take_evict_success ⟨[("B", ⟨4, 0, 0⟩)], 600, 1, 0⟩ "A" 10 0 "B" ⟨4, 0, 0⟩
      (by norm_num [bucketCleanupInterval, minuteNs]) (by simp [assocFind])
      (by norm_num) (by norm_num [oldestEntry]) (by decide)]
    norm_num [hdb, assocErase]
  have h4 : take ⟨[("A", ⟨4, 0, 0⟩)], 600, 1, 0⟩ "A" 10 0 =
      ⟨true, 0, ⟨[("A", ⟨3, 0, 0⟩)], 600, 1, 0⟩⟩ := by
    rw [take_existing_same_now ⟨[("A", ⟨4, 0, 0⟩)], 600, 1, 0⟩ "A" 10 0 ⟨4, 0, 0⟩
      (by norm_num [bucketCleanupInterval, minuteNs]) (by simp [assocFind]) rfl,
      if_pos (by norm_num)]
    norm_num [assocUpdate]
  have hrunI : runTakes ⟨[], 600, 1, 0⟩
      [("A", 10, 0), ("B", 10, 0), ("A", 10, 0)] =
      ⟨[("A", ⟨4, 0, 0⟩)], 600, 1, 0⟩ := by
    show (take ((take ((take ⟨[], 600, 1, 0⟩ "A" 10 0).state) "B" 10 0).state)
        "A" 10 0).state = _
    rw [h1, h2, h3]
  have hrunA : runTakes ⟨[], 600, 1, 0⟩ [("A", (10 : ℤ), (0 : ℤ)), ("A", 10, 0)] =
      ⟨[("A", ⟨3, 0, 0⟩)], 600, 1, 0⟩ := by
    show (take ((take ⟨[], 600, 1, 0⟩ "A" 10 0).state) "A" 10 0).state = _
    rw [h1, h4]
  rw [hfl, hrunI, hrunA]
  refine ⟨by simp [keyTokens, assocFind], by simp [keyTokens, assocFind], rfl⟩

/-- C10: the first `take` call for an unseen key is always allowed while
the table is below `maxBuckets`, whatever the rate: the new bucket starts
with `max(1, rate/2) ≥ 1` tokens. -/
theorem claim_C10 (s : RateLimiter) (key : String) (rate now : ℤ)
    (h1 : assocFind key s.buckets = none)
    (h2 : s.buckets.length < s.maxBuckets) :
    (take s key rate now).allowed = true := by
  have h1' := assocFind_cleanupStep_none s now key h1
  have h2' : (cleanupStep s now).buckets.length < (cleanupStep s now).maxBuckets := by
    rw [cleanupStep_maxBuckets]
    exact lt_of_le_of_lt (cleanupStep_buckets_length_le s now) h2
  have hfresh : (1 : ℚ) ≤ ((dynBurst rate : ℤ) : ℚ) := by
    exact_mod_cast one_le_dynBurst rate
  have htab : resolvedTable (cleanupStep s now) = some (cleanupStep s now).buckets := by
    simp [resolvedTable, not_le.mpr h2']
  rw [take]
  simp only [takeAfterCleanup, h1', htab]
  simp [refillBucket, consumeStep, hfresh]

/-- C10 witness: a concrete unseen key on a fresh limiter, with rate 0. -/
theorem claim_C10_witness :
    (take (newRateLimiter 60 0) "a" 0 0).allowed = true :=
  claim_C10 (newRateLimiter 60 0) "a" 0 0 (by rfl) (by decide)


end RatelimitGo
